import Mathlib

/-!
# offgrid-node: the `/media/upload` handler

A shallow embedding of `cmd/offgrid-node/http.go` (with the `Config` and
`Policies` records of `config.go`) and the properties of the upload pipeline.

Modelling conventions.

* A Go `string` is the list of its code points (`Str`); the model covers
  strings that hold valid UTF-8.  String constants of the source are written
  `"...".toList`.
* A byte stream is a list of bytes (`Bytes`, each byte a `Nat`).
* `int64` values are `Int`; the one place where the source multiplies
  (`MaxFileSizeMB * 1024 * 1024`) wraps explicitly with `wrapInt64`.
* The Go standard-library functions the handler calls (`strings`, `strconv`,
  `path/filepath`, `encoding/hex`, `io.Copy`, `http.MaxBytesReader`,
  `os.Create`/`Sync`/`Rename`) are modelled from their documented behaviour in
  the first sections.
* `path/filepath` depends on the build. The handler is embedded for the
  non-Windows build (separator `/`, no volume names); for the Windows build
  `filepath.Base` and with it `sanitizeFilename` are embedded as well
  (`BaseWindows`, `sanitizeFilenameWindows`).
* The file system is an explicit state `FS`, a map from paths to file
  contents.  Whether a file operation fails is not decided by the program, so
  it is an input: a `Disk` record says which operations of a `saveFile` call
  fail.  Everything else the handler cannot compute (Unicode case tables, the
  random source, the clock) is collected in `Env`.
-/

namespace OffgridNode

/-- Go `string` holding valid UTF-8, as the list of its code points. -/
abbrev Str := List Char

/-- Byte sequences (file contents, request bodies). -/
abbrev Bytes := List Nat

/-! ## package strings -/

/-- Go `strings.HasPrefix(s, pre)`. -/
def HasPrefix (s pre : Str) : Bool := pre.isPrefixOf s

/-- Case mapping of one code point as done by `strings.ToLower`: the ASCII
letters `A`..`Z` go to `a`..`z`, other ASCII characters stay; a code point
outside ASCII is mapped by Go's Unicode tables, supplied as `uni`. -/
def lowerRune (uni : Char → Char) (c : Char) : Char :=
  if c.toNat < 128 then c.toLower else uni c

/-- Go `strings.ToLower`. -/
def ToLower (uni : Char → Char) (s : Str) : Str := s.map (lowerRune uni)

/-- Go `unicode.IsSpace`: the code points with the White_Space property. -/
def IsSpace (c : Char) : Bool :=
  let n := c.toNat
  (0x09 ≤ n && n ≤ 0x0D) || n == 0x20 || n == 0x85 || n == 0xA0 || n == 0x1680 ||
  (0x2000 ≤ n && n ≤ 0x200A) || n == 0x2028 || n == 0x2029 || n == 0x202F ||
  n == 0x205F || n == 0x3000

/-- Go `strings.TrimSpace`: leading and trailing white space removed. -/
def TrimSpace (s : Str) : Str :=
  ((s.dropWhile IsSpace).reverse.dropWhile IsSpace).reverse

/-- The scan of `strings.ReplaceAll` for a non-empty `old`: `skip` counts the
characters of a match that are still to be passed over. At a position that
is not inside a match, a match of `old` emits `new` and the scan resumes after
the match (matches do not overlap); otherwise the character is copied. -/
def replaceFrom (old new : Str) : Nat → Str → Str
  | _, [] => []
  | skip + 1, _ :: cs => replaceFrom old new skip cs
  | 0, c :: cs =>
    if old.isPrefixOf (c :: cs) then new ++ replaceFrom old new (old.length - 1) cs
    else c :: replaceFrom old new 0 cs

/-- Go `strings.ReplaceAll(s, old, new)`. With an empty `old`, `new` is
inserted before every code point and at the end. -/
def ReplaceAll (s old new : Str) : Str :=
  if old = [] then s.foldr (fun c acc => new ++ c :: acc) new
  else replaceFrom old new 0 s

/-! ## package strconv -/

/-- The two kinds of error of `strconv.ParseInt`. -/
inductive NumError
  | ErrSyntax
  | ErrRange
deriving DecidableEq, Repr

/-- Value of a base-10 digit, `none` for any other character. -/
def digitVal (c : Char) : Option Nat :=
  if '0'.toNat ≤ c.toNat ∧ c.toNat ≤ '9'.toNat then some (c.toNat - '0'.toNat) else none

/-- Largest `uint64`. -/
def maxUint64 : Nat := 2 ^ 64 - 1

/-- The digit loop of `strconv.ParseUint(s, 10, 64)` with accumulator `n`,
returning Go's pair of value and error: a non-digit gives `(0, ErrSyntax)`;
`n >= cutoff` or an overflowing `n*10 + d` gives `(maxUint64, ErrRange)`. -/
def parseUintLoop : Nat → Str → Nat × Option NumError
  | n, [] => (n, none)
  | n, c :: cs =>
    match digitVal c with
    | none => (0, some .ErrSyntax)
    | some d =>
      if maxUint64 / 10 + 1 ≤ n then (maxUint64, some .ErrRange)
      else if maxUint64 < n * 10 + d then (maxUint64, some .ErrRange)
      else parseUintLoop (n * 10 + d) cs

/-- Go `strconv.ParseUint(s, 10, 64)`. -/
def ParseUint (s : Str) : Nat × Option NumError :=
  if s = [] then (0, some .ErrSyntax) else parseUintLoop 0 s

/-- Go `strconv.ParseInt(s, 10, 64)`: an optional sign, then `ParseUint`, then
the check against the `int64` range. The result is Go's pair `(i, err)`. -/
def ParseInt (s : Str) : Int × Option NumError :=
  match s with
  | [] => (0, some .ErrSyntax)
  | c :: cs =>
    let neg : Bool := c == '-'
    let digits : Str := if c = '+' ∨ c = '-' then cs else c :: cs
    match ParseUint digits with
    | (_, some .ErrSyntax) => (0, some .ErrSyntax)
    | (un, _) =>
      if !neg ∧ 2 ^ 63 ≤ un then (2 ^ 63 - 1, some .ErrRange)
      else if neg ∧ 2 ^ 63 < un then (-(2 ^ 63), some .ErrRange)
      else (if neg then -(un : Int) else (un : Int), none)

/-! ## package path/filepath (build `!windows`: the separator is `/`) -/

/-- Go `os.IsPathSeparator`. -/
def IsPathSeparator (c : Char) : Bool := c == '/'

/-- Go `filepath.Base`: the last element of the path, trailing separators
removed first; `.` for the empty path, `/` for a path of separators only. -/
def Base (path : Str) : Str :=
  if path = [] then ['.']
  else
    let stripped := (path.reverse.dropWhile IsPathSeparator).reverse
    let last := (stripped.reverse.takeWhile (fun c => !IsPathSeparator c)).reverse
    if last = [] then ['/'] else last

/-- The elements of a path between separators (empty elements included). -/
def splitPath (p : Str) : List Str :=
  p.foldr
    (fun c acc =>
      if IsPathSeparator c then [] :: acc
      else match acc with
        | [] => [[c]]
        | e :: es => (c :: e) :: es)
    [[]]

/-- The element pass of `filepath.Clean`; `out` holds the elements kept so
far, last first. Empty and `.` elements are dropped; `..` removes the element
before it, is dropped at the root of a rooted path, and is kept at the start
of an unrooted one. -/
def cleanElems (rooted : Bool) : List Str → List Str → List Str
  | out, [] => out.reverse
  | out, e :: es =>
    if e = [] ∨ e = ['.'] then cleanElems rooted out es
    else if e = ['.', '.'] then
      match out with
      | [] => if rooted then cleanElems rooted [] es else cleanElems rooted [e] es
      | top :: rest =>
        if top = ['.', '.'] then cleanElems rooted (e :: out) es
        else cleanElems rooted rest es
    else cleanElems rooted (e :: out) es

/-- Go `filepath.Clean`. -/
def Clean (path : Str) : Str :=
  if path = [] then ['.']
  else
    let rooted : Bool := path.head?.any IsPathSeparator
    let body := ['/'].intercalate (cleanElems rooted [] (splitPath path))
    let out := if rooted then '/' :: body else body
    if out = [] then ['.'] else out

/-- Go `filepath.Join(dir, name)`: the non-empty arguments joined by a
separator, then cleaned; empty when both are empty. -/
def Join (dir name : Str) : Str :=
  if dir ≠ [] then Clean (dir ++ '/' :: name)
  else if name ≠ [] then Clean name
  else []

/-! ## package encoding/hex -/

/-- The table `0123456789abcdef`. -/
def hexDigit (n : Nat) : Char := "0123456789abcdef".toList.getD n '0'

/-- Go `hex.EncodeToString`. -/
def EncodeToString (buf : Bytes) : Str :=
  (buf.map (fun b => [hexDigit (b / 16 % 16), hexDigit (b % 16)])).flatten

/-! ## errors, readers and the file system -/

/-- The Go `error` values the handler can meet: the `*http.MaxBytesError` of a
body that passes its limit, and any other error with its message. -/
inductive GoError
  | MaxBytesError (limit : Int)
  | other (msg : Str)
deriving DecidableEq

/-- Go `err.Error()`. -/
def GoError.Error : GoError → Str
  | .MaxBytesError _ => "http: request body too large".toList
  | .other msg => msg

/-- The test `errors.As(err, &maxErr)` for `maxErr *http.MaxBytesError`. -/
def GoError.isMaxBytesError : GoError → Bool
  | .MaxBytesError _ => true
  | .other _ => false

/-- An `io.Reader` read to its end: the bytes it yields, then `io.EOF`
(`fail = none`) or a read error. -/
structure Reader where
  data : Bytes
  fail : Option GoError

/-- Go `http.MaxBytesReader(w, r, n)`: at most `n` bytes of `r` are passed
on; when `r` holds more, the first `n` bytes are followed by a
`*http.MaxBytesError`. -/
def MaxBytesReader (r : Reader) (n : Int) : Reader :=
  let n := if n < 0 then 0 else n
  if (r.data.length : Int) ≤ n then r
  else { data := r.data.take n.toNat, fail := some (GoError.MaxBytesError n) }

/-- The file system: the content of the file at each path, `none` where there
is no file. -/
abbrev FS := Str → Option Bytes

/-- The file at `p` is created or overwritten with content `c`. -/
def FS.put (fs : FS) (p : Str) (c : Bytes) : FS :=
  fun q => if q = p then some c else fs q

/-- A successful `os.Rename(src, dst)`: `dst` takes the file of `src`, which
is gone from `src`. -/
def FS.rename (fs : FS) (src dst : Str) : FS :=
  if src = dst then fs
  else fun q => if q = src then none else if q = dst then fs src else fs q

/-- What the operating system does with the file operations of one `saveFile`
call: each field is the error of that operation, `none` when it succeeds.
`writeErr = some (k, msg)` lets the first `k` bytes be written and fails the
write after them. -/
structure Disk where
  createErr : Option Str
  writeErr : Option (Nat × Str)
  syncErr : Option Str
  renameErr : Option Str

/-- A disk on which every operation succeeds. -/
def Disk.healthy : Disk :=
  { createErr := none, writeErr := none, syncErr := none, renameErr := none }

/-- Go `io.Copy(out, r)`: the bytes that reached the file and the error, if
any. A write error stops the copy at the bytes written so far; otherwise all
of `r` is written and a read error of `r` other than `io.EOF` is returned. -/
def ioCopy (d : Disk) (r : Reader) : Bytes × Option GoError :=
  match d.writeErr with
  | some (k, msg) =>
    if k < r.data.length then (r.data.take k, some (GoError.other msg))
    else (r.data, r.fail)
  | none => (r.data, r.fail)

/-! ## config.go -/

/-- The record `SystemInfo`. -/
structure SystemInfo where
  OSName : Str
  Arch : Str
  Cores : Int
  TotalRAMByte : Int

/-- The record `Policies`. -/
structure Policies where
  AllowImages : Bool
  AllowVideos : Bool
  AllowNSFW : Bool
  AllowAdult : Bool
  MaxFileSizeMB : Int
  MaxVideoLengthSecs : Int

/-- The record `Config`. -/
structure Config where
  NodeID : Str
  NodeSecret : Str
  PublicURL : Str
  BindAddr : Str
  StorageDir : Str
  HeartbeatIntervalSeconds : Int
  System : SystemInfo
  Policies : Policies

/-! ## http.go -/

/-- Go `http.Header`: the values stored under each header name. -/
abbrev Header := Str → List Str

/-- Go `Header.Get`: the first value stored under `key`, the empty string when
there is none. -/
def Header.Get (h : Header) (key : Str) : Str := (h key).headD []

/-- The parts of an `*http.Request` the handler reads. -/
structure Request where
  Method : Str
  Header : Header
  Body : Reader

/-- A JSON value of a response or log field. -/
inductive JSON
  | str (s : Str)
  | bool (b : Bool)
  | num (n : Int)
deriving DecidableEq

/-- What `writeJSON(w, status, payload)` sends: the status code and the
entries of the `map[string]any` payload. -/
structure Response where
  status : Nat
  payload : List (Str × JSON)
deriving DecidableEq

/-- One call of `Logger.Error(event, fields)`. -/
structure LogEntry where
  event : Str
  fields : List (Str × JSON)
deriving DecidableEq

/-- What the handler does not compute itself: Go's Unicode lower-case mapping
for code points outside ASCII, the result of `rand.Read` on the 16-byte buffer
(`none` when it fails), the clock, and the behaviour of the disk. -/
structure Env where
  unicodeToLower : Char → Char
  randRead : Option Bytes
  unixNano : Int
  disk : Disk

/-- Result of `saveFile`: the file system after the call and the returned
pair `(written, err)`. -/
structure SaveResult where
  fs : FS
  written : Nat
  err : Option GoError

/-- Everything observable of one run of the upload handler: the response, the
file system afterwards, the target paths of the `saveFile` calls made, and the
log entries written. -/
structure Outcome where
  resp : Response
  fs : FS
  saveFileCalls : List Str
  log : List LogEntry

/-- Reduction of a product to `int64`. -/
def wrapInt64 (x : Int) : Int := (x + 2 ^ 63) % 2 ^ 64 - 2 ^ 63

/-- The function `authorizeNode`. -/
def authorizeNode (cfg : Config) (r : Request) : Bool :=
  let auth := r.Header.Get "Authorization".toList
  let expected := "Node ".toList ++ cfg.NodeID ++ ":".toList ++ cfg.NodeSecret
  auth = expected

/-- The function `isAllowedMediaType`. -/
def isAllowedMediaType (uni : Char → Char) (p : Policies) (contentType : Str) : Bool :=
  let contentType := ToLower uni contentType
  if HasPrefix contentType "image/".toList then p.AllowImages
  else if HasPrefix contentType "video/".toList then p.AllowVideos
  else false

/-- The function `enforceVideoLength`; the result is the message of the error,
`none` for `nil`. -/
def enforceVideoLength (cfg : Config) (header : Str) : Option Str :=
  if header = [] then none
  else
    match ParseInt header with
    | (_, some _) => some "invalid_video_length".toList
    | (seconds, none) =>
      if cfg.Policies.MaxVideoLengthSecs > 0 ∧ seconds > cfg.Policies.MaxVideoLengthSecs then
        some "video_length_exceeds_limit".toList
      else none

/-- The function `saveFile`. -/
def saveFile (d : Disk) (fs : FS) (path : Str) (r : Reader) : SaveResult :=
  let tmpPath := path ++ ".partial".toList
  match d.createErr with
  | some msg => { fs := fs, written := 0, err := some (GoError.other msg) }
  | none =>
    let fs := fs.put tmpPath []
    let copied := ioCopy d r
    let fs := fs.put tmpPath copied.1
    let written := copied.1.length
    match copied.2 with
    | some err => { fs := fs, written := written, err := some err }
    | none =>
      match d.syncErr with
      | some msg => { fs := fs, written := written, err := some (GoError.other msg) }
      | none =>
        match d.renameErr with
        | some msg => { fs := fs, written := written, err := some (GoError.other msg) }
        | none => { fs := fs.rename tmpPath path, written := written, err := none }

/-- The function `sanitizeFilename`. -/
def sanitizeFilename (name : Str) : Str :=
  if name = [] then []
  else
    let name := Base name
    let name := ReplaceAll name "..".toList []
    name

/-- The function `randomName`. -/
def randomName (env : Env) : Str :=
  match env.randRead with
  | none => "upload-".toList ++ (toString env.unixNano).toList
  | some buf => EncodeToString buf

/-- The function `isHeaderTrue`. -/
def isHeaderTrue (uni : Char → Char) (value : Str) : Bool :=
  let value := TrimSpace (ToLower uni value)
  value = "true".toList || value = "1".toList || value = "yes".toList

/-- The payload `map[string]any{"error": kind}`. -/
def errorPayload (kind : Str) : List (Str × JSON) := [("error".toList, JSON.str kind)]

/-- A response sent before `saveFile` is reached: nothing is written and
nothing is logged. -/
def reject (fs : FS) (status : Nat) (kind : Str) : Outcome :=
  { resp := { status := status, payload := errorPayload kind }, fs := fs,
    saveFileCalls := [], log := [] }

/-- The handler registered by `NewRouter` for `/media/upload`. -/
def uploadHandler (env : Env) (cfg : Config) (fs : FS) (r : Request) : Outcome :=
  if r.Method ≠ "POST".toList then reject fs 405 "method_not_allowed".toList
  else if !authorizeNode cfg r then reject fs 401 "unauthorized".toList
  else
    let contentType := r.Header.Get "Content-Type".toList
    if !isAllowedMediaType env.unicodeToLower cfg.Policies contentType then
      reject fs 415 "media_type_not_allowed".toList
    else if isHeaderTrue env.unicodeToLower (r.Header.Get "X-Content-NSFW".toList)
        && !cfg.Policies.AllowNSFW then
      reject fs 403 "nsfw_not_allowed".toList
    else if isHeaderTrue env.unicodeToLower (r.Header.Get "X-Content-Adult".toList)
        && !cfg.Policies.AllowAdult then
      reject fs 403 "adult_not_allowed".toList
    else
      let maxBytes : Int :=
        if cfg.Policies.MaxFileSizeMB > 0 then
          wrapInt64 (wrapInt64 (cfg.Policies.MaxFileSizeMB * 1024) * 1024)
        else 0
      let reader := if maxBytes > 0 then MaxBytesReader r.Body maxBytes else r.Body
      let filename := sanitizeFilename (r.Header.Get "X-File-Name".toList)
      let filename := if filename = [] then randomName env else filename
      let targetPath := Join cfg.StorageDir filename
      let videoErr : Option Str :=
        if cfg.Policies.MaxVideoLengthSecs > 0 then
          enforceVideoLength cfg (r.Header.Get "X-Video-Length-Seconds".toList)
        else none
      match videoErr with
      | some msg => reject fs 400 msg
      | none =>
        let saved := saveFile env.disk fs targetPath reader
        match saved.err with
        | some err =>
          if err.isMaxBytesError then
            { resp := { status := 413, payload := errorPayload "file_too_large".toList },
              fs := saved.fs, saveFileCalls := [targetPath], log := [] }
          else
            { resp := { status := 500, payload := errorPayload "write_failed".toList },
              fs := saved.fs, saveFileCalls := [targetPath],
              log := [{ event := "media_write_failed".toList,
                        fields := [("error".toList, JSON.str err.Error),
                                   ("path".toList, JSON.str targetPath)] }] }
        | none =>
          { resp := { status := 200,
                      payload := [("stored".toList, JSON.bool true),
                                  ("filename".toList, JSON.str filename),
                                  ("size_byte".toList, JSON.num saved.written)] },
            fs := saved.fs, saveFileCalls := [targetPath], log := [] }

/-! ## package path/filepath and `sanitizeFilename`, build `windows` -/

/-- Go `os.IsPathSeparator` on Windows: backslash and slash. -/
def IsPathSeparatorWindows (c : Char) : Bool := c == '\\' || c == '/'

/-- Go `pathHasPrefixFold(s, prefix)` of `path_windows.go`: `s` starts with
`prefix`, ignoring the case of ASCII letters and taking any separator for a
separator, and the prefix ends at the end of `s` or before a separator. -/
def pathHasPrefixFold (s pre : Str) : Bool :=
  decide (pre.length ≤ s.length) &&
  (List.zip pre s).all (fun pc =>
    if IsPathSeparatorWindows pc.1 then IsPathSeparatorWindows pc.2
    else pc.1.toUpper == pc.2.toUpper) &&
  (match s.drop pre.length with
   | [] => true
   | c :: _ => IsPathSeparatorWindows c)

/-- Index of the first separator of `s`, counted from `i`. -/
def firstSeparator : Nat → Str → Option Nat
  | _, [] => none
  | i, c :: cs => if IsPathSeparatorWindows c then some i else firstSeparator (i + 1) cs

/-- Go `uncLen(path, prefixLen)`: the index of the second separator at or
after `prefixLen`, the length of the path when there is none. -/
def uncLen (path : Str) (prefixLen : Nat) : Nat :=
  match firstSeparator prefixLen (path.drop prefixLen) with
  | none => path.length
  | some i =>
    match firstSeparator (i + 1) (path.drop (i + 1)) with
    | none => path.length
    | some j => j

/-- Go `volumeNameLen` of `path_windows.go`: the length of the leading volume
name, a drive such as `C:`, a UNC host and share, or a device path. -/
def volumeNameLenWindows (path : Str) : Nat :=
  if path.get? 1 = some ':' then 2
  else if path.head?.all (fun c => !IsPathSeparatorWindows c) then 0
  else if pathHasPrefixFold path ['\\', '\\', '.', '\\', 'U', 'N', 'C'] then uncLen path 8
  else if pathHasPrefixFold path ['\\', '\\', '.'] || pathHasPrefixFold path ['\\', '\\', '?']
      || pathHasPrefixFold path ['\\', '?', '?'] then
    if path.length = 3 then 3
    else
      match firstSeparator 4 (path.drop 4) with
      | none => path.length
      | some i => i
  else if (path.get? 1).any IsPathSeparatorWindows then uncLen path 2
  else 0

/-- Go `filepath.Base` on Windows: as `Base`, with both separators, and with
the volume name removed before the last element is taken. -/
def BaseWindows (path : Str) : Str :=
  if path = [] then ['.']
  else
    let stripped := (path.reverse.dropWhile IsPathSeparatorWindows).reverse
    let rest := stripped.drop (volumeNameLenWindows stripped)
    let last := (rest.reverse.takeWhile (fun c => !IsPathSeparatorWindows c)).reverse
    if last = [] then ['\\'] else last

/-- The function `sanitizeFilename` in the Windows build. -/
def sanitizeFilenameWindows (name : Str) : Str :=
  if name = [] then []
  else
    let name := BaseWindows name
    let name := ReplaceAll name "..".toList []
    name

/-! ## the handler's local values

The handler is one closure; the definitions below name the values of its
local variables, so that statements about it can refer to them.
`uploadHandler_checked` relates them to `uploadHandler`. -/

/-- The handler's local variable `maxBytes`. -/
def maxBytesOf (cfg : Config) : Int :=
  if cfg.Policies.MaxFileSizeMB > 0 then
    wrapInt64 (wrapInt64 (cfg.Policies.MaxFileSizeMB * 1024) * 1024)
  else 0

/-- The handler's local variable `reader`. -/
def readerOf (cfg : Config) (r : Request) : Reader :=
  if maxBytesOf cfg > 0 then MaxBytesReader r.Body (maxBytesOf cfg) else r.Body

/-- The handler's local variable `filename`. -/
def filenameOf (env : Env) (r : Request) : Str :=
  if sanitizeFilename (r.Header.Get "X-File-Name".toList) = [] then randomName env
  else sanitizeFilename (r.Header.Get "X-File-Name".toList)

/-- The handler's local variable `targetPath`. -/
def targetPathOf (env : Env) (cfg : Config) (r : Request) : Str :=
  Join cfg.StorageDir (filenameOf env r)

/-- The error of the handler's video-length step, `none` when the step is
skipped or passes. -/
def videoErrOf (cfg : Config) (r : Request) : Option Str :=
  if cfg.Policies.MaxVideoLengthSecs > 0 then
    enforceVideoLength cfg (r.Header.Get "X-Video-Length-Seconds".toList)
  else none

/-- The handler's answer to the result of its `saveFile` call. -/
def savedOutcome (filename targetPath : Str) (saved : SaveResult) : Outcome :=
  match saved.err with
  | some err =>
    if err.isMaxBytesError then
      { resp := { status := 413, payload := errorPayload "file_too_large".toList },
        fs := saved.fs, saveFileCalls := [targetPath], log := [] }
    else
      { resp := { status := 500, payload := errorPayload "write_failed".toList },
        fs := saved.fs, saveFileCalls := [targetPath],
        log := [{ event := "media_write_failed".toList,
                  fields := [("error".toList, JSON.str err.Error),
                             ("path".toList, JSON.str targetPath)] }] }
  | none =>
    { resp := { status := 200,
                payload := [("stored".toList, JSON.bool true),
                            ("filename".toList, JSON.str filename),
                            ("size_byte".toList, JSON.num saved.written)] },
      fs := saved.fs, saveFileCalls := [targetPath], log := [] }

/-! ## the specification's notion of a declared length -/

/-- Value of a string of decimal digits, read from the left. -/
def decimalValue (acc : Nat) (ds : Str) : Nat :=
  ds.foldl (fun n d => n * 10 + (d.toNat - '0'.toNat)) acc

/-- The integer a header value declares, in the words of the specification: an
optional sign followed by one or more decimal digits denotes that integer
(of any size); every other string is non-numeric (`none`). -/
def declaredInteger (s : Str) : Option Int :=
  match s with
  | [] => none
  | c :: cs =>
    let ds : Str := if c = '+' ∨ c = '-' then cs else c :: cs
    if ds ≠ [] ∧ ds.all (fun d => (digitVal d).isSome) then
      some (if c = '-' then -(decimalValue 0 ds : Int) else (decimalValue 0 ds : Int))
    else none

/-! ## sample inputs -/

/-- A header map holding the listed entries. -/
def headerOf (entries : List (Str × Str)) : Header :=
  fun key => (entries.filter (fun e => e.1 = key)).map (fun e => e.2)

/-- The empty file system. -/
def emptyFS : FS := fun _ => none

/-- An environment with a healthy disk. -/
def sampleEnv : Env :=
  { unicodeToLower := id
    randRead := some [0, 17, 34, 51, 68, 85, 102, 119, 136, 153, 170, 187, 204, 221, 238, 255]
    unixNano := 0
    disk := Disk.healthy }

/-- An environment whose disk refuses the final rename, as the operating system
does when the target of the rename is a directory. -/
def renameFailsEnv : Env :=
  { sampleEnv with
    disk := { Disk.healthy with renameErr := some "rename: file exists".toList } }

/-- Policies that allow images and videos but neither NSFW nor adult content,
with the given size and video-length limits. -/
def samplePolicies (maxFileSizeMB maxVideoLengthSecs : Int) : Policies :=
  { AllowImages := true, AllowVideos := true, AllowNSFW := false, AllowAdult := false,
    MaxFileSizeMB := maxFileSizeMB, MaxVideoLengthSecs := maxVideoLengthSecs }

/-- A configuration of node `n1` with secret `s3cret` storing under `/var/data`. -/
def sampleConfig (p : Policies) : Config :=
  { NodeID := "n1".toList, NodeSecret := "s3cret".toList,
    PublicURL := "https://node.example".toList, BindAddr := "0.0.0.0:8787".toList,
    StorageDir := "/var/data".toList, HeartbeatIntervalSeconds := 30,
    System := { OSName := "linux".toList, Arch := "amd64".toList, Cores := 4,
                TotalRAMByte := 8589934592 },
    Policies := p }

/-- A request with the given method, authorised for `sampleConfig`, with the
given content type, further headers and body. -/
def sampleRequest (method contentType : String) (extra : List (String × String))
    (body : Bytes) : Request :=
  { Method := method.toList,
    Header := headerOf
      (("Authorization".toList, "Node n1:s3cret".toList) ::
       ("Content-Type".toList, contentType.toList) ::
       extra.map (fun e => (e.1.toList, e.2.toList))),
    Body := { data := body, fail := none } }

/-! ## lemmas: removal of `..` and `filepath.Base` -/

theorem replaceFrom_dots_pair (rest : Str) :
    replaceFrom ['.', '.'] [] 0 ('.' :: '.' :: rest) = replaceFrom ['.', '.'] [] 0 rest := by
  simp [replaceFrom, List.isPrefixOf]

theorem replaceFrom_dots_keep (c : Char) (cs : Str) (h : ¬ (c = '.' ∧ cs.head? = some '.')) :
    replaceFrom ['.', '.'] [] 0 (c :: cs) = c :: replaceFrom ['.', '.'] [] 0 cs := by
  cases cs with
  | nil => simp [replaceFrom, List.isPrefixOf]
  | cons d ds =>
    have h2 : ¬ (c = '.' ∧ d = '.') := by simpa using h
    have h3 : (('.' == c) && ('.' == d)) = false := by
      by_cases hc : c = '.'
      · have hd : ¬ d = '.' := fun hd => h2 ⟨hc, hd⟩
        have : ('.' == d) = false := by simpa using fun e : '.' = d => hd e.symm
        simp [this]
      · have : ('.' == c) = false := by simpa using fun e : '.' = c => hc e.symm
        simp [this]
    simp [replaceFrom, List.isPrefixOf, h3]

theorem replaceFrom_dots_head (s : Str) (h : s.head? ≠ some '.') :
    (replaceFrom ['.', '.'] [] 0 s).head? ≠ some '.' := by
  cases s with
  | nil => simp [replaceFrom]
  | cons c cs =>
    have hc : c ≠ '.' := by simpa using h
    rw [replaceFrom_dots_keep c cs (fun hh => hc hh.1)]
    simpa using hc

theorem dots_prefix_iff (c : Char) (t : Str) :
    ['.', '.'] <+: c :: t ↔ c = '.' ∧ t.head? = some '.' := by
  rw [List.cons_prefix_cons]
  cases t with
  | nil => simp
  | cons d ds =>
    rw [List.cons_prefix_cons]
    simp only [List.nil_prefix, and_true, List.head?_cons, Option.some.injEq]
    constructor
    · rintro ⟨h1, h2⟩; exact ⟨h1.symm, h2.symm⟩
    · rintro ⟨h1, h2⟩; exact ⟨h1.symm, h2.symm⟩

theorem replaceFrom_dots_clean_aux (n : Nat) :
    ∀ s : Str, s.length ≤ n → ¬ ['.', '.'] <:+: replaceFrom ['.', '.'] [] 0 s := by
  induction n with
  | zero =>
    intro s hs
    have : s = [] := List.length_eq_zero.mp (Nat.le_zero.mp hs)
    subst this
    simp [replaceFrom]
  | succ n ih =>
    intro s hs
    cases s with
    | nil => simp [replaceFrom]
    | cons c cs =>
      by_cases hp : c = '.' ∧ cs.head? = some '.'
      · obtain ⟨hc, hh⟩ := hp
        cases cs with
        | nil => simp at hh
        | cons d ds =>
          have hd : d = '.' := by simpa using hh
          subst hc; subst hd
          rw [replaceFrom_dots_pair]
          apply ih
          simp at hs
          omega
      · rw [replaceFrom_dots_keep c cs hp, List.infix_cons_iff, dots_prefix_iff]
        rintro (⟨hc, hh⟩ | hin)
        · have hcs : cs.head? ≠ some '.' := fun e => hp ⟨hc, e⟩
          exact replaceFrom_dots_head cs hcs hh
        · exact ih cs (by simp at hs; omega) hin

theorem replaceFrom_dots_id (s : Str) (h : ¬ ['.', '.'] <:+: s) :
    replaceFrom ['.', '.'] [] 0 s = s := by
  induction s with
  | nil => simp [replaceFrom]
  | cons c cs ih =>
    rw [List.infix_cons_iff, dots_prefix_iff] at h
    rw [replaceFrom_dots_keep c cs (fun hh => h (Or.inl hh)), ih (fun hh => h (Or.inr hh))]

theorem replaceFrom_dots_clean (s : Str) :
    ¬ ['.', '.'] <:+: replaceFrom ['.', '.'] [] 0 s :=
  replaceFrom_dots_clean_aux s.length s (Nat.le_refl _)

theorem sanitizeFilename_eq (name : Str) (h : name ≠ []) :
    sanitizeFilename name = replaceFrom ['.', '.'] [] 0 (Base name) := by
  simp [sanitizeFilename, ReplaceAll, h]

/-- A name made of a directory prefix and a last element without separator
has that element as its base. -/
theorem Base_append (dir last : Str) (hdir : dir = [] ∨ dir.getLast? = some '/')
    (hne : last ≠ []) (hsep : '/' ∉ last) : Base (dir ++ last) = last := by
  have hrev : last.reverse ≠ [] := by simpa using hne
  obtain ⟨x, xs, hx⟩ := List.exists_cons_of_ne_nil hrev
  have hxmem : x ∈ last := by
    have : x ∈ last.reverse := by rw [hx]; simp
    simpa using this
  have hxsep : IsPathSeparator x = false := by
    have : x ≠ '/' := fun e => hsep (e ▸ hxmem)
    simpa [IsPathSeparator] using this
  have hstrip : ((dir ++ last).reverse.dropWhile IsPathSeparator) = (dir ++ last).reverse := by
    rw [List.reverse_append, hx, List.cons_append, List.dropWhile_cons_of_neg (by simp [hxsep])]
  have hall : ∀ a ∈ last.reverse, (fun c => !IsPathSeparator c) a = true := by
    intro a ha
    have ha2 : a ∈ last := by simpa using ha
    have : a ≠ '/' := fun e => hsep (e ▸ ha2)
    simpa [IsPathSeparator] using this
  have htail : (dir.reverse).takeWhile (fun c => !IsPathSeparator c) = [] := by
    rcases hdir with h | h
    · simp [h]
    · have : dir.reverse.head? = some '/' := by simpa using h
      cases hd : dir.reverse with
      | nil => rfl
      | cons y ys =>
        rw [hd] at this
        have hy : y = '/' := by simpa using this
        simp [hy, IsPathSeparator]
  have hname : dir ++ last ≠ [] := by simp [hne]
  unfold Base
  simp only [hname, if_false, hstrip, List.reverse_reverse]
  rw [List.reverse_append, List.takeWhile_append_of_pos hall, htail]
  simp [hne]

theorem replaceFrom_dots_mem (n : Nat) :
    ∀ s : Str, s.length ≤ n → ∀ x, x ∈ replaceFrom ['.', '.'] [] 0 s → x ∈ s := by
  induction n with
  | zero =>
    intro s hs x hx
    have : s = [] := List.length_eq_zero.mp (Nat.le_zero.mp hs)
    subst this
    simp [replaceFrom] at hx
  | succ n ih =>
    intro s hs x hx
    cases s with
    | nil => simp [replaceFrom] at hx
    | cons c cs =>
      by_cases hp : c = '.' ∧ cs.head? = some '.'
      · obtain ⟨hc, hh⟩ := hp
        cases cs with
        | nil => simp at hh
        | cons d ds =>
          have hd : d = '.' := by simpa using hh
          subst hc; subst hd
          rw [replaceFrom_dots_pair] at hx
          have := ih ds (by simp at hs; omega) x hx
          exact List.mem_cons_of_mem _ (List.mem_cons_of_mem _ this)
      · rw [replaceFrom_dots_keep c cs hp] at hx
        rcases List.mem_cons.mp hx with h | h
        · rw [h]; exact List.mem_cons_self _ _
        · exact List.mem_cons_of_mem _ (ih cs (by simp at hs; omega) x h)

theorem Base_shape (path : Str) : Base path = ['/'] ∨ '/' ∉ Base path := by
  unfold Base
  by_cases hp : path = []
  · right; rw [if_pos hp]; decide
  · rw [if_neg hp]
    simp only
    split
    · left; rfl
    · right
      intro hmem
      have hmem2 := List.mem_reverse.mp hmem
      have := List.mem_takeWhile_imp hmem2
      simp [IsPathSeparator] at this

/-- The results of `sanitizeFilename`: a separator occurs in the result only
when the result is `/`, and the result is never `..`. The results that are not
a safe single path component are therefore the empty string (replaced by
`randomName` in the handler), `.` and `/`. -/
theorem sanitizeFilename_shape (name : Str) :
    ('/' ∈ sanitizeFilename name → sanitizeFilename name = ['/']) ∧
    sanitizeFilename name ≠ ['.', '.'] := by
  by_cases h : name = []
  · subst h
    simp [sanitizeFilename]
  · rw [sanitizeFilename_eq name h]
    constructor
    · intro hmem
      have hin := replaceFrom_dots_mem _ _ (Nat.le_refl _) _ hmem
      rcases Base_shape name with hb | hb
      · rw [hb]; decide
      · exact absurd hin hb
    · intro e
      have := replaceFrom_dots_clean (Base name)
      rw [e] at this
      exact this (List.infix_refl _)

theorem lastElement_append (sep : Char → Bool) (pre last : Str)
    (hpre : pre = [] ∨ ∃ c, pre.getLast? = some c ∧ sep c = true)
    (hall : ∀ c ∈ last, sep c = false) :
    ((pre ++ last).reverse.takeWhile (fun c => !sep c)).reverse = last := by
  have hrev : ∀ a ∈ last.reverse, (fun c => !sep c) a = true := by
    intro a ha
    have := hall a (List.mem_reverse.mp ha)
    simp [this]
  have htail : (pre.reverse).takeWhile (fun c => !sep c) = [] := by
    rcases hpre with h | ⟨c, hc, hs⟩
    · simp [h]
    · have : pre.reverse.head? = some c := by simpa using hc
      cases hd : pre.reverse with
      | nil => rfl
      | cons y ys =>
        rw [hd] at this
        have hy : y = c := by simpa using this
        simp [hy, hs]
  rw [List.reverse_append, List.takeWhile_append_of_pos hrev, htail]
  simp

theorem dropWhile_reverse_append (sep : Char → Bool) (pre last : Str)
    (hne : last ≠ []) (hall : ∀ c ∈ last, sep c = false) :
    ((pre ++ last).reverse.dropWhile sep).reverse = pre ++ last := by
  have hrev : last.reverse ≠ [] := by simpa using hne
  obtain ⟨x, xs, hx⟩ := List.exists_cons_of_ne_nil hrev
  have hxmem : x ∈ last := by
    have : x ∈ last.reverse := by rw [hx]; simp
    simpa using this
  have hxs := hall x hxmem
  rw [List.reverse_append, hx, List.cons_append, List.dropWhile_cons_of_neg (by simp [hxs]),
    ← List.cons_append, ← hx, ← List.reverse_append, List.reverse_reverse]

/-- On Windows a name made of a directory prefix and a last element without
separator has that element as its base, provided the volume name ends within
the prefix. -/
theorem BaseWindows_append (dir last : Str)
    (hdir : dir = [] ∨ ∃ c, dir.getLast? = some c ∧ IsPathSeparatorWindows c = true)
    (hne : last ≠ []) (hsep : ∀ c ∈ last, IsPathSeparatorWindows c = false)
    (hvol : volumeNameLenWindows (dir ++ last) ≤ dir.length) :
    BaseWindows (dir ++ last) = last := by
  have hname : dir ++ last ≠ [] := by simp [hne]
  unfold BaseWindows
  rw [if_neg hname]
  simp only
  rw [dropWhile_reverse_append IsPathSeparatorWindows dir last hne hsep,
    List.drop_append_of_le_length hvol]
  have hpre : dir.drop (volumeNameLenWindows (dir ++ last)) = [] ∨
      ∃ c, (dir.drop (volumeNameLenWindows (dir ++ last))).getLast? = some c ∧
        IsPathSeparatorWindows c = true := by
    by_cases hlen : dir.length ≤ volumeNameLenWindows (dir ++ last)
    · left; exact List.drop_eq_nil_of_le hlen
    · right
      rcases hdir with h | ⟨c, hc, hs⟩
      · rw [h] at hlen; simp at hlen
      · exact ⟨c, by rw [List.getLast?_drop, if_neg hlen]; exact hc, hs⟩
  rw [lastElement_append IsPathSeparatorWindows _ last hpre hsep]
  rw [if_neg hne]

theorem sanitizeFilenameWindows_append (dir last : Str)
    (hdir : dir = [] ∨ ∃ c, dir.getLast? = some c ∧ IsPathSeparatorWindows c = true)
    (hne : last ≠ []) (hsep : ∀ c ∈ last, IsPathSeparatorWindows c = false)
    (hdots : ¬ "..".toList <:+: last)
    (hvol : volumeNameLenWindows (dir ++ last) ≤ dir.length) :
    sanitizeFilenameWindows (dir ++ last) = last := by
  have hname : dir ++ last ≠ [] := by simp [hne]
  unfold sanitizeFilenameWindows
  rw [if_neg hname]
  simp only
  rw [BaseWindows_append dir last hdir hne hsep hvol]
  have : ReplaceAll last "..".toList [] = replaceFrom ['.', '.'] [] 0 last := by
    simp [ReplaceAll]
  rw [this]
  exact replaceFrom_dots_id last hdots

/-! ## lemmas: `filepath.Join` -/

theorem splitPath_step_ne_nil (dir : Str) (x : Str) (tail : List Str) :
    ∃ e es, dir.foldr
      (fun c acc =>
        if IsPathSeparator c then [] :: acc
        else match acc with
          | [] => [[c]]
          | e :: es => (c :: e) :: es) (x :: tail) = e :: es := by
  induction dir with
  | nil => exact ⟨x, tail, rfl⟩
  | cons c d ih =>
    obtain ⟨e, es, h⟩ := ih
    rw [List.foldr_cons, h]
    by_cases hc : IsPathSeparator c = true
    · exact ⟨[], e :: es, by simp [hc]⟩
    · exact ⟨c :: e, es, by simp [hc]⟩

theorem splitPath_foldr_append (dir : Str) (x : Str) (tail : List Str) :
    dir.foldr
      (fun c acc =>
        if IsPathSeparator c then [] :: acc
        else match acc with
          | [] => [[c]]
          | e :: es => (c :: e) :: es) (x :: tail)
    = dir.foldr
      (fun c acc =>
        if IsPathSeparator c then [] :: acc
        else match acc with
          | [] => [[c]]
          | e :: es => (c :: e) :: es) [x] ++ tail := by
  induction dir with
  | nil => rfl
  | cons c d ih =>
    obtain ⟨e, es, h⟩ := splitPath_step_ne_nil d x []
    rw [List.foldr_cons, List.foldr_cons, ih, h]
    by_cases hc : IsPathSeparator c = true
    · simp [hc]
    · simp [hc]

theorem splitPath_component (last : Str) (hsep : '/' ∉ last) : splitPath last = [last] := by
  induction last with
  | nil => rfl
  | cons c cs ih =>
    have hc : IsPathSeparator c = false := by
      have : c ≠ '/' := fun e => hsep (by rw [e]; exact List.mem_cons_self _ _)
      simpa [IsPathSeparator] using this
    have hcs : '/' ∉ cs := fun h => hsep (List.mem_cons_of_mem _ h)
    have ih := ih hcs
    unfold splitPath at ih ⊢
    rw [List.foldr_cons, ih]
    simp [hc]

theorem splitPath_join (dir last : Str) (hsep : '/' ∉ last) :
    splitPath (dir ++ '/' :: last) = splitPath dir ++ [last] := by
  have hlast := splitPath_component last hsep
  unfold splitPath at hlast ⊢
  rw [List.foldr_append, List.foldr_cons, hlast]
  have : IsPathSeparator '/' = true := by decide
  simp only [this, if_true]
  exact splitPath_foldr_append dir [] [last]

theorem cleanElems_snoc (rooted : Bool) (last : Str)
    (hne : last ≠ []) (hdot : last ≠ ['.']) (hdd : last ≠ ['.', '.']) (es : List Str) :
    ∀ out : List Str,
      cleanElems rooted out (es ++ [last]) = cleanElems rooted out es ++ [last] := by
  induction es with
  | nil =>
    intro out
    simp [cleanElems, hne, hdot, hdd]
  | cons e es ih =>
    intro out
    rw [List.cons_append]
    unfold cleanElems
    by_cases h1 : e = [] ∨ e = ['.']
    · rw [if_pos h1, if_pos h1]; exact ih out
    · rw [if_neg h1, if_neg h1]
      by_cases h2 : e = ['.', '.']
      · rw [if_pos h2, if_pos h2]
        cases out with
        | nil =>
          cases rooted
          · simp only [Bool.false_eq_true, if_false]; exact ih _
          · simp only [if_true]; exact ih _
        | cons top rest =>
          simp only
          by_cases h3 : top = ['.', '.']
          · rw [if_pos h3, if_pos h3]; exact ih _
          · rw [if_neg h3, if_neg h3]; exact ih _
      · rw [if_neg h2, if_neg h2]; exact ih _

theorem cleanElems_nonempty (rooted : Bool) (es : List Str) :
    ∀ out : List Str, (∀ x ∈ out, x ≠ []) → ∀ x ∈ cleanElems rooted out es, x ≠ [] := by
  induction es with
  | nil =>
    intro out hout x hx
    unfold cleanElems at hx
    exact hout x (List.mem_reverse.mp hx)
  | cons e es ih =>
    intro out hout x hx
    unfold cleanElems at hx
    by_cases h1 : e = [] ∨ e = ['.']
    · rw [if_pos h1] at hx; exact ih out hout x hx
    · rw [if_neg h1] at hx
      have hene : e ≠ [] := fun h => h1 (Or.inl h)
      have hpush : ∀ y ∈ e :: out, y ≠ [] := by
        intro y hy
        rcases List.mem_cons.mp hy with h | h
        · rw [h]; exact hene
        · exact hout y h
      by_cases h2 : e = ['.', '.']
      · rw [if_pos h2] at hx
        cases out with
        | nil =>
          cases rooted
          · simp only [Bool.false_eq_true, if_false] at hx
            exact ih _ (by intro y hy; simp at hy; rw [hy]; exact hene) x hx
          · simp only [if_true] at hx
            exact ih _ hout x hx
        | cons top rest =>
          simp only at hx
          by_cases h3 : top = ['.', '.']
          · rw [if_pos h3] at hx; exact ih _ hpush x hx
          · rw [if_neg h3] at hx
            exact ih _ (fun y hy => hout y (List.mem_cons_of_mem _ hy)) x hx
      · rw [if_neg h2] at hx; exact ih _ hpush x hx

theorem intercalate_snoc (sep : Str) (last : Str) (xs : List Str) (hxs : xs ≠ []) :
    sep.intercalate (xs ++ [last]) = sep.intercalate xs ++ sep ++ last := by
  induction xs with
  | nil => exact absurd rfl hxs
  | cons x rest ih =>
    cases rest with
    | nil => simp [List.intercalate, List.intersperse]
    | cons y ys =>
      have := ih (by simp)
      simp [List.intercalate, List.intersperse] at this ⊢
      rw [this]

theorem intercalate_ne_nil (sep : Str) (xs : List Str) (hxs : xs ≠ [])
    (hall : ∀ x ∈ xs, x ≠ []) : sep.intercalate xs ≠ [] := by
  cases xs with
  | nil => exact absurd rfl hxs
  | cons x rest =>
    have hx := hall x (List.mem_cons_self _ _)
    cases rest with
    | nil => simpa [List.intercalate, List.intersperse] using hx
    | cons y ys => simp [List.intercalate, List.intersperse, hx]

/-- What `filepath.Join(dir, last)` is for a plain element `last`: the cleaned
directory, a separator, and the element; without the separator when the
cleaned directory is the root, and the element alone when it is `.`. -/
theorem Join_child (dir last : Str) (hdir : dir ≠ []) (hne : last ≠ [])
    (hsep : '/' ∉ last) (hdot : last ≠ ['.']) (hdd : last ≠ ['.', '.']) :
    (Clean dir = ['/'] ∧ Join dir last = '/' :: last) ∨
    (Clean dir = ['.'] ∧ Join dir last = last) ∨
    Join dir last = Clean dir ++ '/' :: last := by
  obtain ⟨d, ds, hd⟩ := List.exists_cons_of_ne_nil hdir
  have hpath : dir ++ '/' :: last ≠ [] := by simp [hdir]
  have hhead : (dir ++ '/' :: last).head? = dir.head? := by rw [hd]; rfl
  have hjoin : Join dir last = Clean (dir ++ '/' :: last) := by
    unfold Join
    rw [if_pos hdir]
  rw [hjoin]
  unfold Clean
  rw [if_neg hpath, if_neg hdir]
  simp only [hhead, splitPath_join dir last hsep]
  rw [cleanElems_snoc _ last hne hdot hdd]
  cases hA : cleanElems (dir.head?.any IsPathSeparator) [] (splitPath dir) with
  | nil =>
    cases hr : dir.head?.any IsPathSeparator
    · right; left
      simp [List.intercalate, hne]
    · left
      simp [List.intercalate]
  | cons a as =>
    right; right
    have hall : ∀ x ∈ a :: as, x ≠ [] := by
      rw [← hA]
      exact cleanElems_nonempty _ _ [] (by simp)
    have hbody := intercalate_ne_nil ['/'] (a :: as) (by simp) hall
    rw [intercalate_snoc ['/'] last (a :: as) (by simp)]
    cases hr : dir.head?.any IsPathSeparator
    · simp [hbody]
    · simp

/-! ## lemmas: `strconv.ParseInt` -/

theorem decimalValue_cons (acc : Nat) (d : Char) (ds : Str) :
    decimalValue acc (d :: ds) = decimalValue (acc * 10 + (d.toNat - '0'.toNat)) ds := rfl

theorem decimalValue_ge (ds : Str) : ∀ acc : Nat, acc ≤ decimalValue acc ds := by
  induction ds with
  | nil => intro acc; exact Nat.le_refl _
  | cons d ds ih =>
    intro acc
    rw [decimalValue_cons]
    have := ih (acc * 10 + (d.toNat - '0'.toNat))
    omega

theorem digitVal_some (c : Char) (h : (digitVal c).isSome = true) :
    digitVal c = some (c.toNat - '0'.toNat) := by
  unfold digitVal at h ⊢
  by_cases hc : '0'.toNat ≤ c.toNat ∧ c.toNat ≤ '9'.toNat
  · rw [if_pos hc]
  · rw [if_neg hc] at h
    exact absurd h (by decide)

theorem parseUintLoop_digits (ds : Str) :
    ∀ acc : Nat, ds.all (fun d => (digitVal d).isSome) = true →
      decimalValue acc ds ≤ maxUint64 →
      parseUintLoop acc ds = (decimalValue acc ds, none) := by
  induction ds with
  | nil => intro acc _ _; rfl
  | cons d ds ih =>
    intro acc hall hle
    have hd : (digitVal d).isSome = true := by
      have := List.all_eq_true.mp hall d (by simp)
      exact this
    have hrest : ds.all (fun d => (digitVal d).isSome) = true := by
      rw [List.all_eq_true] at hall ⊢
      intro x hx
      exact hall x (List.mem_cons_of_mem _ hx)
    rw [decimalValue_cons] at hle ⊢
    have hge := decimalValue_ge ds (acc * 10 + (d.toNat - '0'.toNat))
    have h1 : ¬ maxUint64 / 10 + 1 ≤ acc := by
      have : maxUint64 = 18446744073709551615 := by decide
      omega
    have h2 : ¬ maxUint64 < acc * 10 + (d.toNat - '0'.toNat) := by omega
    unfold parseUintLoop
    rw [digitVal_some d hd]
    simp only [h1, h2, if_false]
    exact ih _ hrest hle

theorem parseUintLoop_overflow (ds : Str) :
    ∀ acc : Nat, ds.all (fun d => (digitVal d).isSome) = true → acc ≤ maxUint64 →
      maxUint64 < decimalValue acc ds →
      parseUintLoop acc ds = (maxUint64, some NumError.ErrRange) := by
  induction ds with
  | nil =>
    intro acc _ hacc h
    exact absurd h (Nat.not_lt.mpr hacc)
  | cons d ds ih =>
    intro acc hall hacc hgt
    have hd : (digitVal d).isSome = true := List.all_eq_true.mp hall d (by simp)
    have hrest : ds.all (fun d => (digitVal d).isSome) = true := by
      rw [List.all_eq_true] at hall ⊢
      intro x hx
      exact hall x (List.mem_cons_of_mem _ hx)
    rw [decimalValue_cons] at hgt
    unfold parseUintLoop
    rw [digitVal_some d hd]
    simp only
    by_cases h1 : maxUint64 / 10 + 1 ≤ acc
    · rw [if_pos h1]
    · rw [if_neg h1]
      by_cases h2 : maxUint64 < acc * 10 + (d.toNat - '0'.toNat)
      · rw [if_pos h2]
      · rw [if_neg h2]
        exact ih _ hrest (Nat.not_lt.mp h2) hgt

theorem parseUintLoop_nondigit (ds : Str) :
    ∀ acc : Nat, ds.all (fun d => (digitVal d).isSome) = false →
      parseUintLoop acc ds = (0, some NumError.ErrSyntax) ∨
      parseUintLoop acc ds = (maxUint64, some NumError.ErrRange) := by
  induction ds with
  | nil => intro acc h; simp at h
  | cons d ds ih =>
    intro acc hall
    unfold parseUintLoop
    cases hd : digitVal d with
    | none => left; rfl
    | some v =>
      simp only
      by_cases h1 : maxUint64 / 10 + 1 ≤ acc
      · right; rw [if_pos h1]
      · rw [if_neg h1]
        by_cases h2 : maxUint64 < acc * 10 + v
        · right; rw [if_pos h2]
        · rw [if_neg h2]
          apply ih
          rw [List.all_cons, hd] at hall
          simpa using hall

theorem ParseInt_cons (c : Char) (cs : Str) :
    ParseInt (c :: cs) =
      match ParseUint (if c = '+' ∨ c = '-' then cs else c :: cs) with
      | (_, some .ErrSyntax) => (0, some .ErrSyntax)
      | (un, _) =>
        if !(c == '-') ∧ 2 ^ 63 ≤ un then (2 ^ 63 - 1, some .ErrRange)
        else if (c == '-') ∧ 2 ^ 63 < un then (-(2 ^ 63), some .ErrRange)
        else (if (c == '-') then -(un : Int) else (un : Int), none) := rfl

theorem ParseUint_ne_nil (ds : Str) (h : ds ≠ []) : ParseUint ds = parseUintLoop 0 ds := by
  unfold ParseUint
  rw [if_neg h]

theorem ParseInt_of_ParseUint_err (c : Char) (cs : Str)
    (h : ParseUint (if c = '+' ∨ c = '-' then cs else c :: cs) = (0, some NumError.ErrSyntax) ∨
      ParseUint (if c = '+' ∨ c = '-' then cs else c :: cs)
        = (maxUint64, some NumError.ErrRange)) :
    (ParseInt (c :: cs)).2 = some NumError.ErrSyntax ∨
      (ParseInt (c :: cs)).2 = some NumError.ErrRange := by
  rw [ParseInt_cons]
  rcases h with h | h
  · left; rw [h]
  · right
    rw [h]
    by_cases hc : c = '-'
    · subst hc; decide
    · have : (c == '-') = false := by simpa using hc
      simp only [this]
      decide

theorem ParseInt_of_ParseUint_ok (c : Char) (cs : Str) (val : Nat)
    (h : ParseUint (if c = '+' ∨ c = '-' then cs else c :: cs) = (val, none)) :
    ParseInt (c :: cs) =
      if c = '-' then
        if 2 ^ 63 < val then (-(2 ^ 63), some NumError.ErrRange) else (-(val : Int), none)
      else
        if 2 ^ 63 ≤ val then (2 ^ 63 - 1, some NumError.ErrRange) else ((val : Int), none) := by
  rw [ParseInt_cons, h]
  by_cases hc : c = '-'
  · have hb : (c == '-') = true := by simpa using hc
    simp [hb, hc]
  · have hb : (c == '-') = false := by simpa using hc
    simp [hb, hc]

/-- `ParseInt` against the specification's notion of a declared integer: a
declared integer within the `int64` range is returned without error; a
non-numeric string and a declared integer outside the range are errors. -/
theorem ParseInt_declaredInteger (s : Str) :
    (∀ v : Int, declaredInteger s = some v → -(2 ^ 63) ≤ v → v < 2 ^ 63 →
      ParseInt s = (v, none)) ∧
    (∀ v : Int, declaredInteger s = some v → (v < -(2 ^ 63) ∨ 2 ^ 63 ≤ v) →
      (ParseInt s).2 = some NumError.ErrRange) ∧
    (declaredInteger s = none → (ParseInt s).2 = some NumError.ErrSyntax ∨
      (ParseInt s).2 = some NumError.ErrRange) := by
  cases s with
  | nil => exact ⟨fun v h => by simp [declaredInteger] at h,
      fun v h => by simp [declaredInteger] at h, fun _ => Or.inl rfl⟩
  | cons c cs =>
    by_cases hnum : (if c = '+' ∨ c = '-' then cs else c :: cs) ≠ [] ∧
        (if c = '+' ∨ c = '-' then cs else c :: cs).all (fun d => (digitVal d).isSome) = true
    · obtain ⟨hne, hall⟩ := hnum
      have hdecl : declaredInteger (c :: cs) =
          some (if c = '-'
            then -(decimalValue 0 (if c = '+' ∨ c = '-' then cs else c :: cs) : Int)
            else (decimalValue 0 (if c = '+' ∨ c = '-' then cs else c :: cs) : Int)) := by
        unfold declaredInteger
        simp only
        rw [if_pos ⟨hne, hall⟩]
      have hpu := ParseUint_ne_nil _ hne
      have hmax : maxUint64 = 18446744073709551615 := by decide
      by_cases hfit : decimalValue 0 (if c = '+' ∨ c = '-' then cs else c :: cs) ≤ maxUint64
      · have hloop := parseUintLoop_digits _ 0 hall hfit
        have hparse := ParseInt_of_ParseUint_ok c cs _ (hpu.trans hloop)
        refine ⟨?_, ?_, ?_⟩
        · intro v hv hlo hhi
          rw [hdecl] at hv
          have hv := Option.some.inj hv
          rw [hparse]
          by_cases hc : c = '-'
          · rw [if_pos hc] at hv ⊢
            rw [if_neg (by omega), hv]
          · rw [if_neg hc] at hv ⊢
            rw [if_neg (by omega), hv]
        · intro v hv hout
          rw [hdecl] at hv
          have hv := Option.some.inj hv
          rw [hparse]
          by_cases hc : c = '-'
          · rw [if_pos hc] at hv ⊢
            rw [if_pos (by omega)]
          · rw [if_neg hc] at hv ⊢
            rw [if_pos (by omega)]
        · intro hnone
          rw [hdecl] at hnone
          exact absurd hnone (by simp)
      · have hloop := parseUintLoop_overflow _ 0 hall (Nat.zero_le _) (Nat.not_le.mp hfit)
        have herr := ParseInt_of_ParseUint_err c cs (Or.inr (hpu.trans hloop))
        refine ⟨?_, ?_, ?_⟩
        · intro v hv hlo hhi
          rw [hdecl] at hv
          have hv := Option.some.inj hv
          by_cases hc : c = '-'
          · rw [if_pos hc] at hv; omega
          · rw [if_neg hc] at hv; omega
        · intro v _ _
          rw [ParseInt_cons, hpu, hloop]
          by_cases hc : c = '-'
          · subst hc; decide
          · have hb : (c == '-') = false := by simpa using hc
            simp only [hb]
            decide
        · intro hnone
          rw [hdecl] at hnone
          exact absurd hnone (by simp)
    · have hdecl : declaredInteger (c :: cs) = none := by
        unfold declaredInteger
        simp only
        rw [if_neg hnum]
      have herr : (ParseInt (c :: cs)).2 = some NumError.ErrSyntax ∨
          (ParseInt (c :: cs)).2 = some NumError.ErrRange := by
        apply ParseInt_of_ParseUint_err
        by_cases hne : (if c = '+' ∨ c = '-' then cs else c :: cs) = []
        · left; rw [hne]; rfl
        · rw [ParseUint_ne_nil _ hne]
          apply parseUintLoop_nondigit
          have : ¬ (if c = '+' ∨ c = '-' then cs else c :: cs).all
              (fun d => (digitVal d).isSome) = true := fun h => hnum ⟨hne, h⟩
          simpa using this
      exact ⟨fun v h => by rw [hdecl] at h; exact absurd h (by simp),
        fun v h => by rw [hdecl] at h; exact absurd h (by simp), fun _ => herr⟩

/-! ## lemmas: `saveFile` and the readers -/

theorem partial_ne (path : Str) : path ≠ path ++ ".partial".toList := by
  intro h
  have := congrArg List.length h
  simp at this

theorem ioCopy_ok (d : Disk) (r : Reader) (h : (ioCopy d r).2 = none) :
    (ioCopy d r).1 = r.data ∧ r.fail = none := by
  unfold ioCopy at h ⊢
  cases hw : d.writeErr with
  | none => simp [hw] at h ⊢; exact h
  | some km =>
    obtain ⟨k, msg⟩ := km
    simp only [hw] at h ⊢
    by_cases hk : k < r.data.length
    · simp [hk] at h
    · simp [hk] at h ⊢; exact h

theorem saveFile_err_frame (d : Disk) (fs : FS) (path : Str) (r : Reader)
    (h : (saveFile d fs path r).err ≠ none) (q : Str) (hq : q ≠ path ++ ".partial".toList) :
    (saveFile d fs path r).fs q = fs q := by
  have hq2 : ¬ q = path ++ ['.', 'p', 'a', 'r', 't', 'i', 'a', 'l'] := by simpa using hq
  unfold saveFile at h ⊢
  cases hc : d.createErr with
  | some msg => simp
  | none =>
    simp only [hc] at h ⊢
    cases hcopy : (ioCopy d r).2 with
    | some e => simp [FS.put, hq2]
    | none =>
      simp only [hcopy] at h ⊢
      cases hs : d.syncErr with
      | some msg => simp [FS.put, hq2]
      | none =>
        simp only [hs] at h ⊢
        cases hr : d.renameErr with
        | some msg => simp [FS.put, hq2]
        | none => simp [hr] at h

theorem saveFile_ok (d : Disk) (fs : FS) (path : Str) (r : Reader)
    (h : (saveFile d fs path r).err = none) :
    (saveFile d fs path r).fs path = some r.data ∧
      (saveFile d fs path r).written = r.data.length ∧ r.fail = none := by
  unfold saveFile at h ⊢
  cases hc : d.createErr with
  | some msg => simp [hc] at h
  | none =>
    simp only [hc] at h ⊢
    cases hcopy : (ioCopy d r).2 with
    | some e => simp [hcopy] at h
    | none =>
      obtain ⟨hdata, hfail⟩ := ioCopy_ok d r hcopy
      simp only [hcopy] at h ⊢
      cases hs : d.syncErr with
      | some msg => simp [hs] at h
      | none =>
        simp only [hs] at h ⊢
        cases hr : d.renameErr with
        | some msg => simp [hr] at h
        | none =>
          have hne := partial_ne path
          have hne2 : ¬ path ++ ".partial".toList = path := fun e => hne e.symm
          simp [FS.rename, FS.put, hne, hne2, hdata, hfail]

theorem saveFile_healthy (fs : FS) (path : Str) (data : Bytes) :
    (saveFile Disk.healthy fs path { data := data, fail := none }).err = none := by
  simp [saveFile, Disk.healthy, ioCopy]

theorem saveFile_copy_err (d : Disk) (fs : FS) (path : Str) (rd : Reader) (e : GoError)
    (hc : d.createErr = none) (hw : d.writeErr = none) (hf : rd.fail = some e) :
    (saveFile d fs path rd).err = some e := by
  simp [saveFile, ioCopy, hc, hw, hf]

theorem saveFile_succeeds (d : Disk) (fs : FS) (path : Str) (rd : Reader)
    (hc : d.createErr = none) (hw : d.writeErr = none) (hs : d.syncErr = none)
    (hr : d.renameErr = none) (hf : rd.fail = none) :
    (saveFile d fs path rd).err = none := by
  simp [saveFile, ioCopy, hc, hw, hs, hr, hf]

theorem MaxBytesReader_over (rd : Reader) (n : Int) (hn : 0 < n)
    (h : n < (rd.data.length : Int)) :
    (MaxBytesReader rd n).fail = some (GoError.MaxBytesError n) := by
  unfold MaxBytesReader
  have h1 : ¬ n < 0 := by omega
  simp only [h1, if_false]
  have h2 : ¬ (rd.data.length : Int) ≤ n := by omega
  simp [h2]

theorem MaxBytesReader_within (rd : Reader) (n : Int) (hn : 0 < n)
    (h : (rd.data.length : Int) ≤ n) : MaxBytesReader rd n = rd := by
  unfold MaxBytesReader
  have h1 : ¬ n < 0 := by omega
  simp [h1, h]

theorem MaxBytesReader_complete (rd : Reader) (n : Int)
    (h : (MaxBytesReader rd n).fail = none) : (MaxBytesReader rd n).data = rd.data := by
  unfold MaxBytesReader at h ⊢
  simp only at h ⊢
  by_cases hle : (rd.data.length : Int) ≤ (if n < 0 then 0 else n)
  · rw [if_pos hle]
  · rw [if_neg hle] at h
    simp at h

theorem readerOf_complete (cfg : Config) (r : Request) (h : (readerOf cfg r).fail = none) :
    (readerOf cfg r).data = r.Body.data := by
  unfold readerOf at h ⊢
  split
  · rename_i hpos
    rw [if_pos hpos] at h
    exact MaxBytesReader_complete _ _ h
  · rfl

theorem readerOf_within (cfg : Config) (r : Request)
    (h : maxBytesOf cfg ≤ 0 ∨ (r.Body.data.length : Int) ≤ maxBytesOf cfg) :
    readerOf cfg r = r.Body := by
  unfold readerOf
  by_cases hpos : maxBytesOf cfg > 0
  · rw [if_pos hpos]
    rcases h with h | h
    · omega
    · exact MaxBytesReader_within r.Body _ hpos h
  · rw [if_neg hpos]

/-! ## lemmas: the handler -/

theorem ToLower_image_png (uni : Char → Char) :
    ToLower uni "image/png".toList = "image/png".toList := by
  rfl

theorem isAllowedMediaType_image_png (uni : Char → Char) (p : Policies) :
    isAllowedMediaType uni p "image/png".toList = p.AllowImages := by
  unfold isAllowedMediaType
  rw [ToLower_image_png]
  rfl

theorem isHeaderTrue_empty (uni : Char → Char) : isHeaderTrue uni [] = false := by
  rfl

theorem Header_Get_absent (h : Header) (key : Str) (habs : h key = []) : h.Get key = [] := by
  simp [Header.Get, habs]

theorem enforceVideoLength_msg (cfg : Config) (header msg : Str)
    (h : enforceVideoLength cfg header = some msg) :
    msg = "invalid_video_length".toList ∨ msg = "video_length_exceeds_limit".toList := by
  unfold enforceVideoLength at h
  split at h
  · simp at h
  · split at h
    · left; simpa using h.symm
    · split at h
      · right; simpa using h.symm
      · simp at h

theorem uploadHandler_checked (env : Env) (cfg : Config) (fs : FS) (r : Request)
    (hM : r.Method = "POST".toList) (hA : authorizeNode cfg r = true)
    (hT : isAllowedMediaType env.unicodeToLower cfg.Policies
      (r.Header.Get "Content-Type".toList) = true)
    (hN : (isHeaderTrue env.unicodeToLower (r.Header.Get "X-Content-NSFW".toList)
      && !cfg.Policies.AllowNSFW) = false)
    (hD : (isHeaderTrue env.unicodeToLower (r.Header.Get "X-Content-Adult".toList)
      && !cfg.Policies.AllowAdult) = false) :
    uploadHandler env cfg fs r =
      match videoErrOf cfg r with
      | some msg => reject fs 400 msg
      | none =>
        savedOutcome (filenameOf env r) (targetPathOf env cfg r)
          (saveFile env.disk fs (targetPathOf env cfg r) (readerOf cfg r)) := by
  unfold uploadHandler
  rw [if_neg (not_not.mpr hM), hA]
  simp only [hT, hN, hD]
  rfl

theorem uploadHandler_nsfw (env : Env) (cfg : Config) (fs : FS) (r : Request)
    (hM : r.Method = "POST".toList) (hA : authorizeNode cfg r = true)
    (hT : isAllowedMediaType env.unicodeToLower cfg.Policies
      (r.Header.Get "Content-Type".toList) = true)
    (hN : (isHeaderTrue env.unicodeToLower (r.Header.Get "X-Content-NSFW".toList)
      && !cfg.Policies.AllowNSFW) = true) :
    uploadHandler env cfg fs r = reject fs 403 "nsfw_not_allowed".toList := by
  unfold uploadHandler
  rw [if_neg (not_not.mpr hM), hA]
  simp only [hT, hN]
  rfl

theorem uploadHandler_adult (env : Env) (cfg : Config) (fs : FS) (r : Request)
    (hM : r.Method = "POST".toList) (hA : authorizeNode cfg r = true)
    (hT : isAllowedMediaType env.unicodeToLower cfg.Policies
      (r.Header.Get "Content-Type".toList) = true)
    (hN : (isHeaderTrue env.unicodeToLower (r.Header.Get "X-Content-NSFW".toList)
      && !cfg.Policies.AllowNSFW) = false)
    (hD : (isHeaderTrue env.unicodeToLower (r.Header.Get "X-Content-Adult".toList)
      && !cfg.Policies.AllowAdult) = true) :
    uploadHandler env cfg fs r = reject fs 403 "adult_not_allowed".toList := by
  unfold uploadHandler
  rw [if_neg (not_not.mpr hM), hA]
  simp only [hT, hN, hD]
  rfl

theorem savedOutcome_payload (filename targetPath : Str) (saved : SaveResult) :
    (savedOutcome filename targetPath saved).resp.payload = errorPayload "file_too_large".toList ∨
    (savedOutcome filename targetPath saved).resp.payload = errorPayload "write_failed".toList ∨
    (savedOutcome filename targetPath saved).resp.status = 200 := by
  unfold savedOutcome
  cases saved.err with
  | none => right; right; rfl
  | some e =>
    cases h : e.isMaxBytesError
    · right; left; simp [h]
    · left; simp [h]

theorem savedOutcome_status (filename targetPath : Str) (saved : SaveResult) :
    (savedOutcome filename targetPath saved).resp.status = 413 ∨
    (savedOutcome filename targetPath saved).resp.status = 500 ∨
    (savedOutcome filename targetPath saved).resp.status = 200 := by
  unfold savedOutcome
  cases saved.err with
  | none => right; right; rfl
  | some e =>
    cases h : e.isMaxBytesError
    · right; left; simp [h]
    · left; simp [h]

theorem savedOutcome_ok (filename targetPath : Str) (saved : SaveResult)
    (h : saved.err = none) :
    savedOutcome filename targetPath saved =
      { resp := { status := 200,
                  payload := [("stored".toList, JSON.bool true),
                              ("filename".toList, JSON.str filename),
                              ("size_byte".toList, JSON.num saved.written)] },
        fs := saved.fs, saveFileCalls := [targetPath], log := [] } := by
  unfold savedOutcome
  rw [h]

theorem savedOutcome_status_ok (filename targetPath : Str) (saved : SaveResult)
    (h : (savedOutcome filename targetPath saved).resp.status = 200) : saved.err = none := by
  unfold savedOutcome at h
  cases hs : saved.err with
  | none => rfl
  | some err => cases hm : err.isMaxBytesError <;> simp [hs, hm] at h

theorem savedOutcome_calls (filename targetPath : Str) (saved : SaveResult) :
    (savedOutcome filename targetPath saved).saveFileCalls = [targetPath] := by
  unfold savedOutcome
  cases saved.err with
  | none => rfl
  | some err => cases hm : err.isMaxBytesError <;> simp [hm]

theorem reject_payload_ne (fs : FS) (status : Nat) (kind other : Str) (h : kind ≠ other) :
    (reject fs status kind).resp.payload ≠ [("error".toList, JSON.str other)] := by
  intro e
  simp [reject, errorPayload] at e
  exact h e

theorem checked_payload_ne (cfg : Config) (fs : FS) (r : Request) (filename targetPath : Str)
    (saved : SaveResult) (other : Str)
    (h1 : other ≠ "invalid_video_length".toList)
    (h2 : other ≠ "video_length_exceeds_limit".toList)
    (h3 : other ≠ "file_too_large".toList)
    (h4 : other ≠ "write_failed".toList) :
    (match videoErrOf cfg r with
      | some msg => reject fs 400 msg
      | none => savedOutcome filename targetPath saved).resp.payload
      ≠ [("error".toList, JSON.str other)] := by
  cases hv : videoErrOf cfg r with
  | some msg =>
    have hmsg : msg = "invalid_video_length".toList ∨ msg = "video_length_exceeds_limit".toList := by
      unfold videoErrOf at hv
      split at hv
      · exact enforceVideoLength_msg _ _ _ hv
      · simp at hv
    apply reject_payload_ne
    rcases hmsg with h | h
    · rw [h]; exact fun e => h1 e.symm
    · rw [h]; exact fun e => h2 e.symm
  | none =>
    show (savedOutcome filename targetPath saved).resp.payload ≠ _
    rcases savedOutcome_payload filename targetPath saved with h | h | h
    · rw [h]; intro e; simp [errorPayload] at e; exact h3 e.symm
    · rw [h]; intro e; simp [errorPayload] at e; exact h4 e.symm
    · intro e
      unfold savedOutcome at e h
      cases hs : saved.err with
      | none => simp [hs] at e
      | some err =>
        cases hm : err.isMaxBytesError <;> simp [hs, hm] at h

theorem checked_status_ne_400 (fs : FS) (filename targetPath : Str) (saved : SaveResult)
    (v : Option Str) (hv : v = none) :
    (match v with
      | some msg => reject fs 400 msg
      | none => savedOutcome filename targetPath saved).resp.status ≠ 400 := by
  subst hv
  show (savedOutcome filename targetPath saved).resp.status ≠ 400
  rcases savedOutcome_status filename targetPath saved with h | h | h <;> rw [h] <;> decide

theorem uploadHandler_cases (env : Env) (cfg : Config) (fs : FS) (r : Request) :
    (∃ status kind, status ≠ 200 ∧ uploadHandler env cfg fs r = reject fs status kind) ∨
    uploadHandler env cfg fs r =
      savedOutcome (filenameOf env r) (targetPathOf env cfg r)
        (saveFile env.disk fs (targetPathOf env cfg r) (readerOf cfg r)) := by
  by_cases hM : r.Method = "POST".toList
  · cases hA : authorizeNode cfg r
    · left
      refine ⟨401, "unauthorized".toList, by decide, ?_⟩
      unfold uploadHandler
      rw [if_neg (not_not.mpr hM), hA]
      rfl
    · cases hT : isAllowedMediaType env.unicodeToLower cfg.Policies
          (r.Header.Get "Content-Type".toList)
      · left
        refine ⟨415, "media_type_not_allowed".toList, by decide, ?_⟩
        unfold uploadHandler
        rw [if_neg (not_not.mpr hM), hA]
        simp only [hT]
        rfl
      · cases hN : (isHeaderTrue env.unicodeToLower (r.Header.Get "X-Content-NSFW".toList)
            && !cfg.Policies.AllowNSFW)
        · cases hD : (isHeaderTrue env.unicodeToLower (r.Header.Get "X-Content-Adult".toList)
              && !cfg.Policies.AllowAdult)
          · rw [uploadHandler_checked env cfg fs r hM hA hT hN hD]
            cases hv : videoErrOf cfg r with
            | some msg => left; exact ⟨400, msg, by decide, rfl⟩
            | none => right; rfl
          · left
            exact ⟨403, _, by decide, uploadHandler_adult env cfg fs r hM hA hT hN hD⟩
        · left
          exact ⟨403, _, by decide, uploadHandler_nsfw env cfg fs r hM hA hT hN⟩
  · left
    refine ⟨405, "method_not_allowed".toList, by decide, ?_⟩
    unfold uploadHandler
    rw [if_pos hM]

theorem sampleRequest_body_length (n : Nat) (m c : String) (e : List (String × String)) :
    (((sampleRequest m c e (List.replicate n 0)).Body.data.length : Nat) : Int) = (n : Int) := by
  show (((List.replicate n 0).length : Nat) : Int) = n
  rw [List.length_replicate]

theorem videoErrOf_invalid (cfg : Config) (r : Request)
    (hL : 0 < cfg.Policies.MaxVideoLengthSecs)
    (hne : r.Header.Get "X-Video-Length-Seconds".toList ≠ [])
    (hP : (ParseInt (r.Header.Get "X-Video-Length-Seconds".toList)).2 ≠ none) :
    videoErrOf cfg r = some "invalid_video_length".toList := by
  unfold videoErrOf enforceVideoLength
  rw [if_pos hL, if_neg hne]
  cases hp : ParseInt (r.Header.Get "X-Video-Length-Seconds".toList) with
  | mk v e =>
    cases e with
    | none => rw [hp] at hP; exact absurd rfl hP
    | some e => rfl

theorem videoErrOf_exceeds (cfg : Config) (r : Request) (seconds : Int)
    (hL : 0 < cfg.Policies.MaxVideoLengthSecs)
    (hP : ParseInt (r.Header.Get "X-Video-Length-Seconds".toList) = (seconds, none))
    (hgt : cfg.Policies.MaxVideoLengthSecs < seconds) :
    videoErrOf cfg r = some "video_length_exceeds_limit".toList := by
  have hne : r.Header.Get "X-Video-Length-Seconds".toList ≠ [] := by
    intro e
    rw [e] at hP
    simp [ParseInt] at hP
  unfold videoErrOf enforceVideoLength
  rw [if_pos hL, if_neg hne, hP]
  simp only
  rw [if_pos ⟨hL, hgt⟩]

/-! ## the claims -/

/-- Claim C1 (the code departs from it). The claim says that the filename the
handler resolves is never `.` and never contains a path separator, so that the
target path is a direct child of the storage directory. For the header values
`.`, `...` and `/` the result of `sanitizeFilename` is `.`, `.` and `/`; it is
not empty, so `randomName` is not used, and `filepath.Join` of the storage
directory `/var/data` with it is `/var/data` itself. The upload with
`X-File-Name: .` calls `saveFile` on `/var/data`: the body is written to
`/var/data.partial`, a sibling of the storage directory, and when the rename
onto the directory fails the answer is 500 `write_failed`. -/
theorem upload_dot_filename_targets_storage_dir :
    sanitizeFilename ".".toList = ".".toList ∧
    sanitizeFilename "...".toList = ".".toList ∧
    sanitizeFilename "/".toList = "/".toList ∧
    Join "/var/data".toList ".".toList = "/var/data".toList ∧
    Join "/var/data".toList "/".toList = "/var/data".toList ∧
    (uploadHandler renameFailsEnv (sampleConfig (samplePolicies 0 0)) emptyFS
        (sampleRequest "POST" "image/png" [("X-File-Name", ".")] [1, 2, 3])).saveFileCalls =
      ["/var/data".toList] ∧
    (uploadHandler renameFailsEnv (sampleConfig (samplePolicies 0 0)) emptyFS
        (sampleRequest "POST" "image/png" [("X-File-Name", ".")] [1, 2, 3])).fs
        "/var/data.partial".toList = some [1, 2, 3] ∧
    (uploadHandler renameFailsEnv (sampleConfig (samplePolicies 0 0)) emptyFS
        (sampleRequest "POST" "image/png" [("X-File-Name", ".")] [1, 2, 3])).resp =
      { status := 500, payload := [("error".toList, JSON.str "write_failed".toList)] } := by
  decide

/-- Claim C2. Over the file system `fs`, for every disk behaviour `d`, path and
stream `r`: when `saveFile` returns an error, the file at `path` is what it
was before and every path other than `path ++ ".partial"` is unchanged; when
it returns no error, `path` holds exactly the bytes of the stream and the
returned count is their number; a strict prefix of the stream found at `path`
after the call was there before it; when no file operation fails and the
stream ends without error, `saveFile` returns no error; and an empty stream on
a healthy disk is stored as an empty file with count 0. -/
theorem saveFile_atomic (d : Disk) (fs : FS) (path : Str) (r : Reader) :
    ((saveFile d fs path r).err ≠ none →
      (saveFile d fs path r).fs path = fs path ∧
      ∀ q, q ≠ path ++ ".partial".toList → (saveFile d fs path r).fs q = fs q) ∧
    ((saveFile d fs path r).err = none →
      (saveFile d fs path r).fs path = some r.data ∧
      (saveFile d fs path r).written = r.data.length) ∧
    (∀ c, (saveFile d fs path r).fs path = some c → c <+: r.data → c ≠ r.data →
      fs path = some c) ∧
    (d.createErr = none → d.writeErr = none → d.syncErr = none → d.renameErr = none →
      r.fail = none → (saveFile d fs path r).err = none) ∧
    ((saveFile Disk.healthy fs path { data := [], fail := none }).err = none ∧
      (saveFile Disk.healthy fs path { data := [], fail := none }).written = 0 ∧
      (saveFile Disk.healthy fs path { data := [], fail := none }).fs path = some []) := by
  refine ⟨?_, ?_, ?_, ?_, ?_⟩
  · intro h
    exact ⟨saveFile_err_frame d fs path r h path (partial_ne path),
      fun q hq => saveFile_err_frame d fs path r h q hq⟩
  · intro h
    exact ⟨(saveFile_ok d fs path r h).1, (saveFile_ok d fs path r h).2.1⟩
  · intro c hc _ hne
    cases herr : (saveFile d fs path r).err with
    | none =>
      rw [(saveFile_ok d fs path r herr).1] at hc
      exact absurd (Option.some.inj hc).symm hne
    | some e =>
      have hframe := saveFile_err_frame d fs path r (by rw [herr]; simp) path (partial_ne path)
      rw [← hframe]
      exact hc
  · intro hc hw hs hr hf
    exact saveFile_succeeds d fs path r hc hw hs hr hf
  · have h := saveFile_healthy fs path []
    exact ⟨h, (saveFile_ok _ _ _ _ h).2.1, (saveFile_ok _ _ _ _ h).1⟩

/-- Claim C2, witness: an upload of three bytes over an existing file, once on a
disk whose rename fails (the old file stays, the bytes are in the partial
file) and once on a healthy disk (the file holds the three bytes). -/
theorem saveFile_atomic_witness :
    ((saveFile renameFailsEnv.disk (emptyFS.put "/var/data/a.png".toList [9])
        "/var/data/a.png".toList { data := [1, 2, 3], fail := none }).fs
        "/var/data/a.png".toList = some [9]) ∧
    ((saveFile Disk.healthy (emptyFS.put "/var/data/a.png".toList [9])
        "/var/data/a.png".toList { data := [1, 2, 3], fail := none }).fs
        "/var/data/a.png".toList = some [1, 2, 3]) :=
  ⟨((saveFile_atomic renameFailsEnv.disk (emptyFS.put "/var/data/a.png".toList [9])
      "/var/data/a.png".toList { data := [1, 2, 3], fail := none }).1 (by decide)).1,
   ((saveFile_atomic Disk.healthy (emptyFS.put "/var/data/a.png".toList [9])
      "/var/data/a.png".toList { data := [1, 2, 3], fail := none }).2.1 (by decide)).1⟩

/-- Claim C3. Whatever the environment, configuration, file system and request:
a request whose method is not `POST` is answered 405 `method_not_allowed`; a
`POST` request whose `Authorization` header is not exactly
`Node <node_id>:<node_secret>` is answered 401 `unauthorized`; in both cases
`saveFile` is not called and the file system is unchanged. -/
theorem upload_method_then_authorization (env : Env) (cfg : Config) (fs : FS) (r : Request) :
    (r.Method ≠ "POST".toList →
      (uploadHandler env cfg fs r).resp =
          { status := 405, payload := [("error".toList, JSON.str "method_not_allowed".toList)] } ∧
        (uploadHandler env cfg fs r).saveFileCalls = [] ∧
        (uploadHandler env cfg fs r).fs = fs) ∧
    (r.Method = "POST".toList →
      r.Header.Get "Authorization".toList
          ≠ "Node ".toList ++ cfg.NodeID ++ ":".toList ++ cfg.NodeSecret →
      (uploadHandler env cfg fs r).resp =
          { status := 401, payload := [("error".toList, JSON.str "unauthorized".toList)] } ∧
        (uploadHandler env cfg fs r).saveFileCalls = [] ∧
        (uploadHandler env cfg fs r).fs = fs) := by
  constructor
  · intro hM
    unfold uploadHandler
    rw [if_pos hM]
    exact ⟨rfl, rfl, rfl⟩
  · intro hM hA
    have hA2 : authorizeNode cfg r = false := by
      unfold authorizeNode
      exact decide_eq_false hA
    unfold uploadHandler
    rw [if_neg (not_not.mpr hM), hA2]
    exact ⟨rfl, rfl, rfl⟩

/-- Claim C3, witness: a `GET` request that carries the right credential, and a
`POST` request whose credential has the wrong secret. -/
theorem upload_method_then_authorization_witness :
    (uploadHandler sampleEnv (sampleConfig (samplePolicies 0 0)) emptyFS
        (sampleRequest "GET" "image/png" [] [1, 2, 3])).resp =
      { status := 405, payload := [("error".toList, JSON.str "method_not_allowed".toList)] } ∧
    (uploadHandler sampleEnv
        { sampleConfig (samplePolicies 0 0) with NodeSecret := "other".toList } emptyFS
        (sampleRequest "POST" "image/png" [] [1, 2, 3])).resp =
      { status := 401, payload := [("error".toList, JSON.str "unauthorized".toList)] } :=
  ⟨((upload_method_then_authorization sampleEnv (sampleConfig (samplePolicies 0 0)) emptyFS
      (sampleRequest "GET" "image/png" [] [1, 2, 3])).1 (by decide)).1,
   ((upload_method_then_authorization sampleEnv
      { sampleConfig (samplePolicies 0 0) with NodeSecret := "other".toList } emptyFS
      (sampleRequest "POST" "image/png" [] [1, 2, 3])).2 (by decide) (by decide)).1⟩

/-- Claim C4, counterexample. With `max_file_size_mb = 17592186044416` (2^44,
a positive `int64`) the limit computed in `int64` arithmetic is `N = 0`, and an
authorised, permitted upload whose body has `N + 1 = 1` byte is stored and
answered 200, not 413. -/
theorem upload_size_limit_counterexample :
    (0 : Int) < 17592186044416 ∧
    wrapInt64 (wrapInt64 (17592186044416 * 1024) * 1024) = 0 ∧
    (([7] : Bytes).length : Int) = 0 + 1 ∧
    (uploadHandler sampleEnv (sampleConfig (samplePolicies 17592186044416 0)) emptyFS
        (sampleRequest "POST" "image/png" [("X-File-Name", "dot.png")] [7])).resp =
      { status := 200,
        payload := [("stored".toList, JSON.bool true),
                    ("filename".toList, JSON.str "dot.png".toList),
                    ("size_byte".toList, JSON.num 1)] } := by
  decide

/-- Claim C4, amended. For every `max_file_size_mb > 0` whose limit
`N = max_file_size_mb * 1024 * 1024`, computed in wrapping `int64` arithmetic,
is positive, and every authorised upload that passes the policy checks, on a
disk where creating and writing the partial file do not fail: a body of `N + 1`
bytes is answered 413 `file_too_large`; a body of exactly `N` bytes that ends
without a read error, on a disk where sync and rename do not fail either, is
answered 200 and stored whole at the target path. -/
theorem upload_size_limit (env : Env) (cfg : Config) (fs : FS) (r : Request) (N : Int)
    (hM : r.Method = "POST".toList) (hA : authorizeNode cfg r = true)
    (hT : isAllowedMediaType env.unicodeToLower cfg.Policies
      (r.Header.Get "Content-Type".toList) = true)
    (hN : (isHeaderTrue env.unicodeToLower (r.Header.Get "X-Content-NSFW".toList)
      && !cfg.Policies.AllowNSFW) = false)
    (hD : (isHeaderTrue env.unicodeToLower (r.Header.Get "X-Content-Adult".toList)
      && !cfg.Policies.AllowAdult) = false)
    (hV : videoErrOf cfg r = none)
    (hmb : 0 < cfg.Policies.MaxFileSizeMB)
    (hlim : N = wrapInt64 (wrapInt64 (cfg.Policies.MaxFileSizeMB * 1024) * 1024))
    (hpos : 0 < N)
    (hc : env.disk.createErr = none) (hw : env.disk.writeErr = none) :
    ((r.Body.data.length : Int) = N + 1 →
      (uploadHandler env cfg fs r).resp =
        { status := 413, payload := [("error".toList, JSON.str "file_too_large".toList)] }) ∧
    ((r.Body.data.length : Int) = N → r.Body.fail = none →
      env.disk.syncErr = none → env.disk.renameErr = none →
      (uploadHandler env cfg fs r).resp.status = 200 ∧
        (uploadHandler env cfg fs r).fs (targetPathOf env cfg r) = some r.Body.data) := by
  have hmax : maxBytesOf cfg = N := by
    unfold maxBytesOf
    rw [if_pos hmb, hlim]
  have hrd : readerOf cfg r = MaxBytesReader r.Body N := by
    unfold readerOf
    rw [hmax, if_pos hpos]
  rw [uploadHandler_checked env cfg fs r hM hA hT hN hD, hV]
  simp only [hrd]
  constructor
  · intro hlen
    have hfail := MaxBytesReader_over r.Body N hpos (by omega)
    have herr := saveFile_copy_err env.disk fs (targetPathOf env cfg r) _ _ hc hw hfail
    unfold savedOutcome
    rw [herr]
    rfl
  · intro hlen hf hs hr
    rw [MaxBytesReader_within r.Body N hpos (by omega)]
    have herr := saveFile_succeeds env.disk fs (targetPathOf env cfg r) r.Body hc hw hs hr hf
    rw [savedOutcome_ok _ _ _ herr]
    exact ⟨rfl, (saveFile_ok _ _ _ _ herr).1⟩

/-- Claim C4, witness: `max_file_size_mb = 1`, so `N = 1048576`; the body of
1048577 bytes is answered 413 and the body of 1048576 bytes 200. -/
theorem upload_size_limit_witness :
    (uploadHandler sampleEnv (sampleConfig (samplePolicies 1 0)) emptyFS
        (sampleRequest "POST" "image/png" [("X-File-Name", "big.png")]
          (List.replicate 1048577 0))).resp =
      { status := 413, payload := [("error".toList, JSON.str "file_too_large".toList)] } ∧
    (uploadHandler sampleEnv (sampleConfig (samplePolicies 1 0)) emptyFS
        (sampleRequest "POST" "image/png" [("X-File-Name", "big.png")]
          (List.replicate 1048576 0))).resp.status = 200 :=
  ⟨(upload_size_limit sampleEnv (sampleConfig (samplePolicies 1 0)) emptyFS
      (sampleRequest "POST" "image/png" [("X-File-Name", "big.png")]
        (List.replicate 1048577 0)) 1048576
      (by decide) (by decide) (by decide) (by decide) (by decide) (by decide) (by decide)
      (by decide) (by decide) rfl rfl).1
        (sampleRequest_body_length 1048577 _ _ _),
   ((upload_size_limit sampleEnv (sampleConfig (samplePolicies 1 0)) emptyFS
      (sampleRequest "POST" "image/png" [("X-File-Name", "big.png")]
        (List.replicate 1048576 0)) 1048576
      (by decide) (by decide) (by decide) (by decide) (by decide) (by decide) (by decide)
      (by decide) (by decide) rfl rfl).2
        (sampleRequest_body_length 1048576 _ _ _) rfl rfl rfl).1⟩

/-- Claim C5. For every policy with `AllowImages = false` and every authorised
`POST` request whose `Content-Type` is `image/png`, whatever its other headers
and its body, the answer is 415 `media_type_not_allowed`, `saveFile` is not
called and the file system is unchanged. -/
theorem upload_image_denied (env : Env) (cfg : Config) (fs : FS) (r : Request)
    (hM : r.Method = "POST".toList) (hA : authorizeNode cfg r = true)
    (hP : cfg.Policies.AllowImages = false)
    (hT : r.Header.Get "Content-Type".toList = "image/png".toList) :
    (uploadHandler env cfg fs r).resp =
        { status := 415, payload := [("error".toList, JSON.str "media_type_not_allowed".toList)] } ∧
      (uploadHandler env cfg fs r).saveFileCalls = [] ∧
      (uploadHandler env cfg fs r).fs = fs := by
  have hT2 : isAllowedMediaType env.unicodeToLower cfg.Policies
      (r.Header.Get "Content-Type".toList) = false := by
    rw [hT, isAllowedMediaType_image_png, hP]
  unfold uploadHandler
  rw [if_neg (not_not.mpr hM), hA]
  simp only [hT2]
  exact ⟨rfl, rfl, rfl⟩

/-- Claim C5, witness: a policy that allows everything but images, and a
request that also carries a file name and an NSFW flag. -/
theorem upload_image_denied_witness :
    (uploadHandler sampleEnv
        (sampleConfig { samplePolicies 0 0 with AllowImages := false }) emptyFS
        (sampleRequest "POST" "image/png"
          [("X-File-Name", "cat.png"), ("X-Content-NSFW", "true")] [1, 2, 3])).resp =
      { status := 415, payload := [("error".toList, JSON.str "media_type_not_allowed".toList)] } :=
  (upload_image_denied sampleEnv
    (sampleConfig { samplePolicies 0 0 with AllowImages := false }) emptyFS
    (sampleRequest "POST" "image/png"
      [("X-File-Name", "cat.png"), ("X-Content-NSFW", "true")] [1, 2, 3])
    (by decide) (by decide) (by decide) (by decide)).1

/-- Claim C6. For every authorised `POST` upload whose media type the policy
allows: a truthy `X-Content-NSFW` with `AllowNSFW = false` is answered 403
`nsfw_not_allowed`; when the NSFW check does not deny, a truthy
`X-Content-Adult` with `AllowAdult = false` is answered 403
`adult_not_allowed`; in both cases `saveFile` is not called; and when a flag
header is absent or not truthy the answer is not the denial of that flag. -/
theorem upload_flag_checks (env : Env) (cfg : Config) (fs : FS) (r : Request)
    (hM : r.Method = "POST".toList) (hA : authorizeNode cfg r = true)
    (hT : isAllowedMediaType env.unicodeToLower cfg.Policies
      (r.Header.Get "Content-Type".toList) = true) :
    (isHeaderTrue env.unicodeToLower (r.Header.Get "X-Content-NSFW".toList) = true →
      cfg.Policies.AllowNSFW = false →
      (uploadHandler env cfg fs r).resp =
          { status := 403, payload := [("error".toList, JSON.str "nsfw_not_allowed".toList)] } ∧
        (uploadHandler env cfg fs r).saveFileCalls = []) ∧
    (¬ (isHeaderTrue env.unicodeToLower (r.Header.Get "X-Content-NSFW".toList) = true ∧
          cfg.Policies.AllowNSFW = false) →
      isHeaderTrue env.unicodeToLower (r.Header.Get "X-Content-Adult".toList) = true →
      cfg.Policies.AllowAdult = false →
      (uploadHandler env cfg fs r).resp =
          { status := 403, payload := [("error".toList, JSON.str "adult_not_allowed".toList)] } ∧
        (uploadHandler env cfg fs r).saveFileCalls = []) ∧
    ((r.Header "X-Content-NSFW".toList = [] ∨
        isHeaderTrue env.unicodeToLower (r.Header.Get "X-Content-NSFW".toList) = false) →
      (uploadHandler env cfg fs r).resp.payload
        ≠ [("error".toList, JSON.str "nsfw_not_allowed".toList)]) ∧
    ((r.Header "X-Content-Adult".toList = [] ∨
        isHeaderTrue env.unicodeToLower (r.Header.Get "X-Content-Adult".toList) = false) →
      (uploadHandler env cfg fs r).resp.payload
        ≠ [("error".toList, JSON.str "adult_not_allowed".toList)]) := by
  refine ⟨?_, ?_, ?_, ?_⟩
  · intro hN hP
    rw [uploadHandler_nsfw env cfg fs r hM hA hT (by rw [hN, hP]; rfl)]
    exact ⟨rfl, rfl⟩
  · intro hN hD hP
    have hN2 : (isHeaderTrue env.unicodeToLower (r.Header.Get "X-Content-NSFW".toList)
        && !cfg.Policies.AllowNSFW) = false := by
      cases h1 : isHeaderTrue env.unicodeToLower (r.Header.Get "X-Content-NSFW".toList)
      · rfl
      · cases h2 : cfg.Policies.AllowNSFW
        · exact absurd ⟨h1, h2⟩ hN
        · rfl
    rw [uploadHandler_adult env cfg fs r hM hA hT hN2 (by rw [hD, hP]; rfl)]
    exact ⟨rfl, rfl⟩
  · intro hN
    have hN2 : (isHeaderTrue env.unicodeToLower (r.Header.Get "X-Content-NSFW".toList)
        && !cfg.Policies.AllowNSFW) = false := by
      rcases hN with h | h
      · rw [Header_Get_absent _ _ h]; rfl
      · rw [h]; rfl
    cases hD : (isHeaderTrue env.unicodeToLower (r.Header.Get "X-Content-Adult".toList)
        && !cfg.Policies.AllowAdult)
    · rw [uploadHandler_checked env cfg fs r hM hA hT hN2 hD]
      exact checked_payload_ne cfg fs r _ _ _ _ (by decide) (by decide) (by decide) (by decide)
    · rw [uploadHandler_adult env cfg fs r hM hA hT hN2 hD]
      exact reject_payload_ne _ _ _ _ (by decide)
  · intro hD
    have hD2 : (isHeaderTrue env.unicodeToLower (r.Header.Get "X-Content-Adult".toList)
        && !cfg.Policies.AllowAdult) = false := by
      rcases hD with h | h
      · rw [Header_Get_absent _ _ h]; rfl
      · rw [h]; rfl
    cases hN : (isHeaderTrue env.unicodeToLower (r.Header.Get "X-Content-NSFW".toList)
        && !cfg.Policies.AllowNSFW)
    · rw [uploadHandler_checked env cfg fs r hM hA hT hN hD2]
      exact checked_payload_ne cfg fs r _ _ _ _ (by decide) (by decide) (by decide) (by decide)
    · rw [uploadHandler_nsfw env cfg fs r hM hA hT hN]
      exact reject_payload_ne _ _ _ _ (by decide)

/-- Claim C6, witness: `allow_images = true`, `allow_nsfw = false`, content type
`image/jpeg` and the flag written ` TRUE `, which is truthy after lower-casing
and trimming. -/
theorem upload_flag_checks_witness :
    (uploadHandler sampleEnv (sampleConfig (samplePolicies 0 0)) emptyFS
        (sampleRequest "POST" "image/jpeg" [("X-Content-NSFW", " TRUE ")] [1, 2, 3])).resp =
      { status := 403, payload := [("error".toList, JSON.str "nsfw_not_allowed".toList)] } :=
  ((upload_flag_checks sampleEnv (sampleConfig (samplePolicies 0 0)) emptyFS
    (sampleRequest "POST" "image/jpeg" [("X-Content-NSFW", " TRUE ")] [1, 2, 3])
    (by decide) (by decide) (by decide)).1 (by decide) (by decide)).1

/-- Claim C7, counterexample. With a limit of 60 seconds the header
`9223372036854775808` declares an integer greater than the limit, yet
`ParseInt` fails on it with `ErrRange` and the answer is
`invalid_video_length`, not `video_length_exceeds_limit`; and with no limit
configured the non-numeric header `abc` is not rejected: the upload is stored
and answered 200. -/
theorem upload_video_length_counterexample :
    declaredInteger "9223372036854775808".toList = some 9223372036854775808 ∧
    (ParseInt "9223372036854775808".toList).2 = some NumError.ErrRange ∧
    (uploadHandler sampleEnv (sampleConfig (samplePolicies 0 60)) emptyFS
        (sampleRequest "POST" "video/mp4"
          [("X-Video-Length-Seconds", "9223372036854775808")] [1, 2, 3])).resp =
      { status := 400, payload := [("error".toList, JSON.str "invalid_video_length".toList)] } ∧
    declaredInteger "abc".toList = none ∧
    (uploadHandler sampleEnv (sampleConfig (samplePolicies 0 0)) emptyFS
        (sampleRequest "POST" "video/mp4"
          [("X-File-Name", "clip.mp4"), ("X-Video-Length-Seconds", "abc")] [1, 2, 3])).resp =
      { status := 200,
        payload := [("stored".toList, JSON.bool true),
                    ("filename".toList, JSON.str "clip.mp4".toList),
                    ("size_byte".toList, JSON.num 3)] } := by
  decide

/-- Claim C7, amended. For every authorised `POST` upload that passes the
media-type, NSFW and adult checks, with `h` the value of
`X-Video-Length-Seconds`: when a limit is configured and `h` declares an
integer greater than the limit that fits in `int64`, the answer is 400
`video_length_exceeds_limit`; when a limit is configured and `h` is not empty
and is non-numeric, or declares an integer outside the `int64` range, the
answer is 400 `invalid_video_length`; in these cases `saveFile` is not called;
when the header is absent, or no limit is configured, the answer is never
400, the status of the two video-length errors. -/
theorem upload_video_length (env : Env) (cfg : Config) (fs : FS) (r : Request)
    (hM : r.Method = "POST".toList) (hA : authorizeNode cfg r = true)
    (hT : isAllowedMediaType env.unicodeToLower cfg.Policies
      (r.Header.Get "Content-Type".toList) = true)
    (hN : (isHeaderTrue env.unicodeToLower (r.Header.Get "X-Content-NSFW".toList)
      && !cfg.Policies.AllowNSFW) = false)
    (hD : (isHeaderTrue env.unicodeToLower (r.Header.Get "X-Content-Adult".toList)
      && !cfg.Policies.AllowAdult) = false) :
    (∀ seconds : Int, 0 < cfg.Policies.MaxVideoLengthSecs →
      declaredInteger (r.Header.Get "X-Video-Length-Seconds".toList) = some seconds →
      cfg.Policies.MaxVideoLengthSecs < seconds → seconds < 2 ^ 63 →
      (uploadHandler env cfg fs r).resp =
          { status := 400,
            payload := [("error".toList, JSON.str "video_length_exceeds_limit".toList)] } ∧
        (uploadHandler env cfg fs r).saveFileCalls = [] ∧
        (uploadHandler env cfg fs r).fs = fs) ∧
    (0 < cfg.Policies.MaxVideoLengthSecs →
      r.Header.Get "X-Video-Length-Seconds".toList ≠ [] →
      (declaredInteger (r.Header.Get "X-Video-Length-Seconds".toList) = none ∨
        ∃ seconds : Int,
          declaredInteger (r.Header.Get "X-Video-Length-Seconds".toList) = some seconds ∧
          (seconds < -(2 ^ 63) ∨ 2 ^ 63 ≤ seconds)) →
      (uploadHandler env cfg fs r).resp =
          { status := 400,
            payload := [("error".toList, JSON.str "invalid_video_length".toList)] } ∧
        (uploadHandler env cfg fs r).saveFileCalls = [] ∧
        (uploadHandler env cfg fs r).fs = fs) ∧
    (r.Header "X-Video-Length-Seconds".toList = [] →
      (uploadHandler env cfg fs r).resp.status ≠ 400) ∧
    (cfg.Policies.MaxVideoLengthSecs ≤ 0 →
      (uploadHandler env cfg fs r).resp.status ≠ 400) := by
  rw [uploadHandler_checked env cfg fs r hM hA hT hN hD]
  refine ⟨?_, ?_, ?_, ?_⟩
  · intro seconds hL hdecl hgt hfit
    have hP := (ParseInt_declaredInteger _).1 seconds hdecl (by omega) hfit
    rw [videoErrOf_exceeds cfg r seconds hL hP hgt]
    exact ⟨rfl, rfl, rfl⟩
  · intro hL hne hbad
    have hP : (ParseInt (r.Header.Get "X-Video-Length-Seconds".toList)).2 ≠ none := by
      rcases hbad with hnone | ⟨seconds, hdecl, hout⟩
      · rcases (ParseInt_declaredInteger _).2.2 hnone with h | h <;> rw [h] <;> simp
      · rw [(ParseInt_declaredInteger _).2.1 seconds hdecl hout]
        simp
    rw [videoErrOf_invalid cfg r hL hne hP]
    exact ⟨rfl, rfl, rfl⟩
  · intro habs
    apply checked_status_ne_400
    unfold videoErrOf enforceVideoLength
    rw [Header_Get_absent _ _ habs]
    simp
  · intro hL
    apply checked_status_ne_400
    unfold videoErrOf
    rw [if_neg (by omega)]

/-- Claim C7, witness: a limit of 60 seconds and a declared length of 61. -/
theorem upload_video_length_witness :
    (uploadHandler sampleEnv (sampleConfig (samplePolicies 0 60)) emptyFS
        (sampleRequest "POST" "video/mp4" [("X-Video-Length-Seconds", "61")] [1, 2, 3])).resp =
      { status := 400,
        payload := [("error".toList, JSON.str "video_length_exceeds_limit".toList)] } :=
  ((upload_video_length sampleEnv (sampleConfig (samplePolicies 0 60)) emptyFS
    (sampleRequest "POST" "video/mp4" [("X-Video-Length-Seconds", "61")] [1, 2, 3])
    (by decide) (by decide) (by decide) (by decide) (by decide)).1
      61 (by decide) (by decide) (by decide) (by decide)).1

/-- Claim C8 (the code departs from it). The claim names the third field of the
success answer `size_bytes`. A stored upload of three bytes is answered 200
with the fields `stored`, `filename` and `size_byte`; no field is named
`size_bytes`. -/
theorem upload_success_payload_key :
    (uploadHandler sampleEnv (sampleConfig (samplePolicies 0 0)) emptyFS
        (sampleRequest "POST" "image/png" [("X-File-Name", "cat.png")] [1, 2, 3])).resp =
      { status := 200,
        payload := [("stored".toList, JSON.bool true),
                    ("filename".toList, JSON.str "cat.png".toList),
                    ("size_byte".toList, JSON.num 3)] } ∧
    "size_bytes".toList ∉
      (uploadHandler sampleEnv (sampleConfig (samplePolicies 0 0)) emptyFS
        (sampleRequest "POST" "image/png" [("X-File-Name", "cat.png")] [1, 2, 3])
        ).resp.payload.map (fun e => e.1) := by
  decide

/-- Claim C9, counterexample. In the Windows build the header `C:passwd` is a
non-empty last component (the directory prefix is empty) that contains no path
separator and no `..`, yet `filepath.Base` removes the volume name `C:` and
`sanitizeFilename` returns `passwd`, not the component. -/
theorem upload_last_component_counterexample :
    "C:passwd".toList ≠ [] ∧
    (∀ c ∈ "C:passwd".toList, IsPathSeparatorWindows c = false) ∧
    ¬ "..".toList <:+: "C:passwd".toList ∧
    sanitizeFilenameWindows ([] ++ "C:passwd".toList) = "passwd".toList ∧
    sanitizeFilenameWindows ([] ++ "C:passwd".toList) ≠ "C:passwd".toList := by
  decide

/-- Claim C9, amended. For every `X-File-Name` value made of a directory
prefix `dir` (empty, or ending in a separator) and a non-empty last component
`last` with no separator and no `..` in it: `sanitizeFilename` returns `last`,
in the non-Windows build always and in the Windows build when the volume name
of the value ends within the directory prefix; in particular
`sanitizeFilename("../../etc/passwd") = "passwd"`. In the non-Windows build
every `saveFile` call of the handler targets `filepath.Join(StorageDir, last)`;
an authorised upload that passes the policy, video-length and size checks,
whose body ends without a read error, on a disk whose operations do not fail,
is answered 200 with `filename` `last` and stored whole at that path; whenever
the answer is 200 the file at that path holds the body; and for `last` other
than `.` that path is `last` directly under the cleaned storage directory. -/
theorem upload_last_component (env : Env) (cfg : Config) (fs : FS) (r : Request)
    (dir last : Str)
    (hdir : dir = [] ∨ dir.getLast? = some '/')
    (hne : last ≠ [])
    (hsep : '/' ∉ last)
    (hdots : ¬ "..".toList <:+: last)
    (hname : r.Header.Get "X-File-Name".toList = dir ++ last) :
    sanitizeFilename (dir ++ last) = last ∧
    (∀ p ∈ (uploadHandler env cfg fs r).saveFileCalls, p = Join cfg.StorageDir last) ∧
    ((uploadHandler env cfg fs r).resp.status = 200 →
      (uploadHandler env cfg fs r).saveFileCalls = [Join cfg.StorageDir last] ∧
      (uploadHandler env cfg fs r).fs (Join cfg.StorageDir last) = some r.Body.data ∧
      ("filename".toList, JSON.str last) ∈ (uploadHandler env cfg fs r).resp.payload) ∧
    (r.Method = "POST".toList → authorizeNode cfg r = true →
      isAllowedMediaType env.unicodeToLower cfg.Policies
        (r.Header.Get "Content-Type".toList) = true →
      (isHeaderTrue env.unicodeToLower (r.Header.Get "X-Content-NSFW".toList)
        && !cfg.Policies.AllowNSFW) = false →
      (isHeaderTrue env.unicodeToLower (r.Header.Get "X-Content-Adult".toList)
        && !cfg.Policies.AllowAdult) = false →
      videoErrOf cfg r = none →
      (maxBytesOf cfg ≤ 0 ∨ (r.Body.data.length : Int) ≤ maxBytesOf cfg) →
      r.Body.fail = none →
      env.disk.createErr = none → env.disk.writeErr = none →
      env.disk.syncErr = none → env.disk.renameErr = none →
      (uploadHandler env cfg fs r).resp =
          { status := 200,
            payload := [("stored".toList, JSON.bool true),
                        ("filename".toList, JSON.str last),
                        ("size_byte".toList, JSON.num r.Body.data.length)] } ∧
        (uploadHandler env cfg fs r).saveFileCalls = [Join cfg.StorageDir last] ∧
        (uploadHandler env cfg fs r).fs (Join cfg.StorageDir last) = some r.Body.data) ∧
    (cfg.StorageDir ≠ [] → last ≠ ['.'] →
      (Clean cfg.StorageDir = ['/'] ∧ Join cfg.StorageDir last = '/' :: last) ∨
      (Clean cfg.StorageDir = ['.'] ∧ Join cfg.StorageDir last = last) ∨
      Join cfg.StorageDir last = Clean cfg.StorageDir ++ '/' :: last) ∧
    sanitizeFilename "../../etc/passwd".toList = "passwd".toList ∧
    (∀ wdir wlast : Str,
      (wdir = [] ∨ ∃ c, wdir.getLast? = some c ∧ IsPathSeparatorWindows c = true) →
      wlast ≠ [] → (∀ c ∈ wlast, IsPathSeparatorWindows c = false) →
      ¬ "..".toList <:+: wlast →
      volumeNameLenWindows (wdir ++ wlast) ≤ wdir.length →
      sanitizeFilenameWindows (wdir ++ wlast) = wlast) := by
  have hsan : sanitizeFilename (dir ++ last) = last := by
    rw [sanitizeFilename_eq _ (by simp [hne]), Base_append dir last hdir hne hsep]
    exact replaceFrom_dots_id last hdots
  have hfile : filenameOf env r = last := by
    unfold filenameOf
    rw [hname, hsan, if_neg hne]
  have htarget : targetPathOf env cfg r = Join cfg.StorageDir last := by
    unfold targetPathOf
    rw [hfile]
  refine ⟨hsan, ?_, ?_, ?_, ?_, by decide, ?_⟩
  · intro p hp
    rcases uploadHandler_cases env cfg fs r with ⟨status, kind, _, h⟩ | h
    · rw [h] at hp
      simp [reject] at hp
    · rw [h, savedOutcome_calls, htarget] at hp
      simpa using hp
  · intro h200
    rcases uploadHandler_cases env cfg fs r with ⟨status, kind, hst, h⟩ | h
    · rw [h] at h200
      exact absurd h200 hst
    · rw [h] at h200 ⊢
      have herr := savedOutcome_status_ok _ _ _ h200
      have hsaved := saveFile_ok _ _ _ _ herr
      rw [savedOutcome_ok _ _ _ herr]
      refine ⟨by rw [htarget], ?_, ?_⟩
      · show (saveFile env.disk fs (targetPathOf env cfg r) (readerOf cfg r)).fs _ = _
        rw [← htarget, hsaved.1, readerOf_complete cfg r hsaved.2.2]
      · rw [hfile]
        simp
  · intro hM hA hT hN hD hV hsize hf hc hw hs hr
    have hrd := readerOf_within cfg r hsize
    have herr := saveFile_succeeds env.disk fs (targetPathOf env cfg r) r.Body hc hw hs hr hf
    have hsaved := saveFile_ok _ _ _ _ herr
    rw [uploadHandler_checked env cfg fs r hM hA hT hN hD, hV]
    simp only [hrd]
    rw [savedOutcome_ok _ _ _ herr, hfile, hsaved.2.1, ← htarget]
    exact ⟨rfl, rfl, hsaved.1⟩
  · intro hstore hdot
    have hdd : last ≠ ['.', '.'] := by
      intro e
      apply hdots
      rw [e]
      exact List.infix_refl _
    exact Join_child cfg.StorageDir last hstore hne hsep hdot hdd
  · intro wdir wlast hwdir hwne hwsep hwdots hwvol
    exact sanitizeFilenameWindows_append wdir wlast hwdir hwne hwsep hwdots hwvol

/-- Claim C9, witness: the header `../../etc/passwd`, split into `../../etc/`
and `passwd`, on an upload of three bytes that passes every check: the answer
is 200 with `filename` `passwd`, the one `saveFile` call targets
`/var/data/passwd`, and the file there holds the three bytes; in the Windows
build `..\..\etc\passwd` is reduced to `passwd` as well. -/
theorem upload_last_component_witness :
    (uploadHandler sampleEnv (sampleConfig (samplePolicies 0 0)) emptyFS
        (sampleRequest "POST" "image/png" [("X-File-Name", "../../etc/passwd")]
          [1, 2, 3])).resp =
      { status := 200,
        payload := [("stored".toList, JSON.bool true),
                    ("filename".toList, JSON.str "passwd".toList),
                    ("size_byte".toList, JSON.num 3)] } ∧
    (uploadHandler sampleEnv (sampleConfig (samplePolicies 0 0)) emptyFS
        (sampleRequest "POST" "image/png" [("X-File-Name", "../../etc/passwd")]
          [1, 2, 3])).saveFileCalls = ["/var/data/passwd".toList] ∧
    (uploadHandler sampleEnv (sampleConfig (samplePolicies 0 0)) emptyFS
        (sampleRequest "POST" "image/png" [("X-File-Name", "../../etc/passwd")]
          [1, 2, 3])).fs "/var/data/passwd".toList = some [1, 2, 3] ∧
    sanitizeFilenameWindows ("..\\..\\etc\\".toList ++ "passwd".toList) = "passwd".toList := by
  have h := upload_last_component sampleEnv (sampleConfig (samplePolicies 0 0)) emptyFS
    (sampleRequest "POST" "image/png" [("X-File-Name", "../../etc/passwd")] [1, 2, 3])
    "../../etc/".toList "passwd".toList (by decide) (by decide) (by decide) (by decide)
    (by decide)
  have hstored := h.2.2.2.1 (by decide) (by decide) (by decide) (by decide) (by decide)
    (by decide) (by decide) (by decide) (by decide) (by decide) (by decide) (by decide)
  have hpath : Join (sampleConfig (samplePolicies 0 0)).StorageDir "passwd".toList
      = "/var/data/passwd".toList := by decide
  rw [hpath] at hstored
  exact ⟨hstored.1, hstored.2.1, hstored.2.2,
    h.2.2.2.2.2.2 "..\\..\\etc\\".toList "passwd".toList (by decide) (by decide) (by decide)
      (by decide) (by decide)⟩

/-- Claim C10. For every input, the result of `sanitizeFilename` has no
occurrence of `..`; for example `...` becomes `.` and `....` becomes the empty
string. -/
theorem sanitizeFilename_no_dotdot (name : Str) :
    ¬ "..".toList <:+: sanitizeFilename name ∧
    sanitizeFilename "...".toList = ".".toList ∧
    sanitizeFilename "....".toList = [] := by
  refine ⟨?_, by decide, by decide⟩
  by_cases h : name = []
  · subst h
    simp [sanitizeFilename]
  · rw [sanitizeFilename_eq name h]
    exact replaceFrom_dots_clean _

end OffgridNode
